import Mathlib

/-!
Verification of the `memvid-export-api` server (GitNexus repository) against its
natural-language specification.

The Rust sources are shallowly embedded: pure functions become Lean functions,
stateful handlers become explicit state passing, `u32`/`u64`/`usize` become `Nat`
with explicit wrap/saturation where the source uses wrapping or saturating
arithmetic, `f64` quantities (progress percentages, token-bucket tokens, ranking
scores) are modelled as `ℚ`, Rust `String` is Lean `String` (with character-level
manipulations on `String.data`), `HashMap` is modelled as a function into
`Option`, and fallible code returns `Option`/`Except`.  Fields of source structs
that no modelled operation ever reads (trace metadata, emoji glyphs, opaque
`serde_json::Value` payloads) are either elided or carried as opaque `String`
canonical forms; every such elision is noted at the definition.
-/

namespace GitNexus

/-! ### Character/string helpers shared by several embedded functions -/

/-- Unicode `White_Space` code points, as used by Rust's `char::is_whitespace`
(and hence by `str::trim` and `str::split_whitespace`). -/
def rustIsWhitespace (c : Char) : Bool :=
  c.toNat = 0x9 ∨ c.toNat = 0xA ∨ c.toNat = 0xB ∨ c.toNat = 0xC ∨ c.toNat = 0xD ∨
  c.toNat = 0x20 ∨ c.toNat = 0x85 ∨ c.toNat = 0xA0 ∨ c.toNat = 0x1680 ∨
  (0x2000 ≤ c.toNat ∧ c.toNat ≤ 0x200A) ∨ c.toNat = 0x2028 ∨ c.toNat = 0x2029 ∨
  c.toNat = 0x202F ∨ c.toNat = 0x205F ∨ c.toNat = 0x3000

/-- Rust `str::trim`: remove leading and trailing whitespace characters. -/
def rustTrimList (l : List Char) : List Char :=
  ((l.dropWhile rustIsWhitespace).reverse.dropWhile rustIsWhitespace).reverse

/-- Rust `str::trim` on a `String` model. -/
def rustTrim (s : String) : String :=
  String.mk (rustTrimList s.data)

/-- Rust `str::strip_prefix` on character lists: `some rest` when `p ++ rest`. -/
def stripPrefixList : List Char → List Char → Option (List Char)
  | [], l => some l
  | _ :: _, [] => none
  | p :: ps, c :: cs => if p = c then stripPrefixList ps cs else none

/-- Rust `str::contains` (substring occurrence) on character lists. -/
def containsSub (hay needle : List Char) : Bool :=
  (List.range (hay.length + 1)).any fun i => needle.isPrefixOf (hay.drop i)

/-- Rust `str::find` (position of the first occurrence of a substring, here as a
character index; the source only slices at ASCII boundaries so character and
byte indexing agree on the slices taken). -/
def findSub (hay needle : List Char) : Option Nat :=
  (List.range (hay.length + 1)).find? fun i => needle.isPrefixOf (hay.drop i)

/-- Rust `str::contains` on the `String` model. -/
def strContainsSub (hay needle : String) : Bool :=
  containsSub hay.data needle.data

/-! ### `auth.rs` — bearer-token authentication (claim C1)

The only request header the authentication code reads is `Authorization`, so a
header map is modelled by that optional raw value.  `HeaderValue::to_str` (from
the `http` crate) succeeds exactly when every byte is visible ASCII or space,
which the model checks per character. -/

structure HeaderMap where
  authorization : Option String
deriving DecidableEq

/-- Characters on which `HeaderValue::to_str` succeeds (visible ASCII plus
space and tab). -/
def isHeaderStrChar (c : Char) : Bool :=
  c.toNat = 0x9 ∨ (0x20 ≤ c.toNat ∧ c.toNat < 0x7F)

inductive AuthError
  | missingHeader
  | invalidHeader
  | notBearer
  | invalidKey
deriving DecidableEq

/-- Every failure of `auth.rs` maps to HTTP 401 via `unauthorized(..)`. -/
def authErrorStatus : AuthError → Nat := fun _ => 401

/-- Embedding of `auth.rs::extract_bearer_token`. -/
def extract_bearer_token (headers : HeaderMap) : Except AuthError String :=
  match headers.authorization with
  | none => .error .missingHeader
  | some raw =>
    if raw.data.all isHeaderStrChar then
      match stripPrefixList "Bearer ".data raw.data with
      | some token => .ok (String.mk token)
      | none => .error .notBearer
    else .error .invalidHeader

/-- Embedding of `auth.rs::verify_bearer`: extract the token, then reject
unless `token.trim() == expected_key`. -/
def verify_bearer (headers : HeaderMap) (expected_key : String) : Except AuthError Unit :=
  match extract_bearer_token headers with
  | .error e => .error e
  | .ok token => if rustTrim token ≠ expected_key then .error .invalidKey else .ok ()

/-- Embedding of the authentication step of `mcp_api.rs::mcp` (lines 269-285):
extract the bearer token and compare `token.trim()` with the configured key. -/
def mcpAuthAccepts (headers : HeaderMap) (api_key : String) : Bool :=
  match extract_bearer_token headers with
  | .error _ => false
  | .ok token => rustTrim token = api_key

/-- The routes registered in `main.rs` (lines 129-142). -/
inductive Route
  | healthz
  | mcp
  | createExport
  | getExport
  | cancelExport
  | getExportEvents
  | streamExportEvents
  | downloadExport
deriving DecidableEq

/-- Whether the route's handler lets the request past authentication:
`healthz` performs no check; `mcp` performs its inline check; every other
handler starts with `verify_bearer`. -/
def routeAuthAccepts (r : Route) (headers : HeaderMap) (api_key : String) : Bool :=
  match r with
  | .healthz => true
  | .mcp => mcpAuthAccepts headers api_key
  | _ => match verify_bearer headers api_key with
         | .ok _ => true
         | .error _ => false

/-! ### `rate_limit.rs` — per-key token bucket (claim C7)

`f64` token counts and `Instant` time points are modelled as `ℚ` (seconds).
`Instant::duration_since` saturates to zero when the other instant is later,
hence the `max _ 0` on the elapsed time.  The bucket map guarded by the mutex
is modelled as a function into `Option`. -/

structure RateLimitHeaders where
  limit : Nat
  remaining : Nat
  reset_seconds : Nat
deriving DecidableEq

structure RateLimitDecision where
  allowed : Bool
  headers : RateLimitHeaders
deriving DecidableEq

structure BucketState where
  tokens : ℚ
  last_refill : ℚ
deriving DecidableEq

structure RateLimiter where
  per_minute : Nat
  burst : Nat
deriving DecidableEq

/-- Embedding of `RateLimiter::new`: both configured values are floored at 1. -/
def RateLimiter.new (per_minute burst : Nat) : RateLimiter :=
  ⟨max per_minute 1, max burst 1⟩

/-- Embedding of `RateLimiter::check`.  Returns the decision together with the
updated bucket map (the mutation performed under the mutex). -/
def RateLimiter.check (rl : RateLimiter) (buckets : String → Option BucketState)
    (key : String) (now : ℚ) : RateLimitDecision × (String → Option BucketState) :=
  let refill_per_sec : ℚ := (rl.per_minute : ℚ) / 60
  let capacity : ℚ := ((max rl.burst rl.per_minute : Nat) : ℚ)
  let b0 := (buckets key).getD ⟨capacity, now⟩
  let elapsed : ℚ := max (now - b0.last_refill) 0
  let b1 : BucketState :=
    if 0 < elapsed then ⟨min (b0.tokens + elapsed * refill_per_sec) capacity, now⟩ else b0
  let allowed := 1 ≤ b1.tokens
  let b2 : BucketState := if allowed then ⟨b1.tokens - 1, b1.last_refill⟩ else b1
  let remaining : Nat := (max (⌊b2.tokens⌋) 0).toNat
  let deficit : ℚ := max (1 - b2.tokens) 0
  let reset_seconds : Nat := if deficit ≤ 0 then 0 else (⌈deficit / refill_per_sec⌉).toNat
  (⟨decide allowed, ⟨rl.per_minute, remaining, reset_seconds⟩⟩,
   fun k => if k = key then some b2 else buckets k)

/-- Capacity as the specification states it: `max(B, R)`. -/
def specBucketCapacity (rl : RateLimiter) : ℚ := ((max rl.burst rl.per_minute : Nat) : ℚ)

/-- Refill rate as the specification states it: `R/60` tokens per second. -/
def specBucketRefill (rl : RateLimiter) : ℚ := (rl.per_minute : ℚ) / 60

/-- The bucket consulted by `check`: lazily initialized at capacity. -/
def specBucketPrev (rl : RateLimiter) (buckets : String → Option BucketState)
    (key : String) (now : ℚ) : BucketState :=
  (buckets key).getD ⟨specBucketCapacity rl, now⟩

/-- Token count after restoring `elapsed × refill`, capped at capacity
(the specification's refill formula). -/
def specBucketRestored (rl : RateLimiter) (buckets : String → Option BucketState)
    (key : String) (now : ℚ) : ℚ :=
  min ((specBucketPrev rl buckets key now).tokens +
        max (now - (specBucketPrev rl buckets key now).last_refill) 0 * specBucketRefill rl)
      (specBucketCapacity rl)

/-- Token count after the allow/deny decision: one token deducted iff at least
one token was available. -/
def specBucketAfter (rl : RateLimiter) (buckets : String → Option BucketState)
    (key : String) (now : ℚ) : ℚ :=
  if 1 ≤ specBucketRestored rl buckets key now then specBucketRestored rl buckets key now - 1
  else specBucketRestored rl buckets key now

/-! ### `models.rs` — job data model

`GraphNode`'s property bag and `ExportRequest`'s option/source sub-records are
reduced to the fields some modelled operation reads; no modelled operation
reads node properties, so `GraphNode` keeps only `id` and `label`.  Events
elide the derived `emoji` glyph and the opaque `meta : serde_json::Value`,
which no claim mentions.  `next_seq`/`seq` are `u64` (hence the explicit
saturation at `U64_MAX` in `append_job_event`), timestamps are `ℚ`. -/

inductive JobState
  | queued
  | running
  | completed
  | failed
  | canceled
  | expired
deriving DecidableEq

inductive ExportStage
  | queued
  | transform
  | framePrep
  | writeCapsule
  | buildSidecar
  | finalize
  | downloadReady
  | failed
  | canceled
  | expired
deriving DecidableEq

inductive ExportEventType
  | jobStarted
  | stageProgress
  | stageHeartbeat
  | jobCompleted
  | jobFailed
  | jobCanceled
  | jobExpired
deriving DecidableEq

structure GraphNode where
  id : String
  label : String
deriving DecidableEq

structure GraphRelationship where
  id : String
  source_id : String
  target_id : String
  relation_type : String
  confidence : ℚ
  reason : String
  step : Option Nat
deriving DecidableEq

structure ExportRequest where
  session_id : String
  project_name : String
  base_name : String
  nodes : List GraphNode
  relationships : List GraphRelationship
  file_contents : List (String × String)
  semantic_enabled : Bool
deriving DecidableEq

structure ExportArtifact where
  file_name : String
  download_url : String
  expires_at : ℚ
  size_bytes : Nat
deriving DecidableEq

structure ExportErrorPayload where
  code : String
  message : String
deriving DecidableEq

structure ExportLogEvent where
  seq : Nat
  ts : ℚ
  job_id : String
  event_type : ExportEventType
  stage : ExportStage
  progress : ℚ
  stage_progress : Option ℚ
  message : String
deriving DecidableEq

structure JobRecord where
  job_id : String
  created_at : ℚ
  updated_at : ℚ
  status : JobState
  progress : ℚ
  message : Option String
  request : Option ExportRequest
  artifact : Option ExportArtifact
  error : Option ExportErrorPayload
  artifact_path : Option String
  events : List ExportLogEvent
  next_seq : Nat
  current_stage : ExportStage
  stage_progress : ℚ
  last_event_at : ℚ
deriving DecidableEq

/-! ### `queue.rs` — event append, worker mutations, retention -/

def MAX_JOB_EVENTS : Nat := 5000

/-- Largest `u64` value; `next_seq.saturating_add(1)` caps here. -/
def U64_MAX : Nat := 2 ^ 64 - 1

/-- Rust `f64::clamp(lo, hi)`. -/
def clampQ (x lo hi : ℚ) : ℚ := min (max x lo) hi

/-- Embedding of `queue.rs::append_job_event`, the single critical section that
issues an event's `seq`, mutates the job record, pushes the event onto the ring
and trims the ring to `MAX_JOB_EVENTS` by dropping oldest entries.  Returns
`none` when the event is filtered (job already canceled/expired and the event
kind is not terminal); the caller-side "job id not in the map" case is handled
where the map is modelled.  The `while`-pop-front loop is translated as
dropping `length - MAX_JOB_EVENTS` elements from the front. -/
def appendedEvent (job : JobRecord) (event_type : ExportEventType) (stage : ExportStage)
    (progress : ℚ) (stage_progress : Option ℚ) (message : String) (now : ℚ) :
    ExportLogEvent :=
  ⟨job.next_seq, now, job.job_id, event_type, stage, clampQ progress 0 100,
   some (clampQ (stage_progress.getD job.stage_progress) 0 100), message⟩

def appendedJob (job : JobRecord) (event_type : ExportEventType) (stage : ExportStage)
    (progress : ℚ) (stage_progress : Option ℚ) (message : String) (now : ℚ) : JobRecord :=
  let event := appendedEvent job event_type stage progress stage_progress message now
  let events0 := job.events ++ [event]
  { job with
    progress := clampQ progress 0 100, current_stage := stage,
    stage_progress := clampQ (stage_progress.getD job.stage_progress) 0 100,
    message := some message, updated_at := now, last_event_at := now,
    next_seq := min (job.next_seq + 1) U64_MAX,
    events := events0.drop (events0.length - MAX_JOB_EVENTS) }

def append_job_event (job : JobRecord) (event_type : ExportEventType) (stage : ExportStage)
    (progress : ℚ) (stage_progress : Option ℚ) (message : String) (now : ℚ) :
    Option (JobRecord × ExportLogEvent) :=
  if (job.status = .canceled ∨ job.status = .expired) ∧
      ¬(event_type = .jobCanceled ∨ event_type = .jobExpired) then
    none
  else
    some (appendedJob job event_type stage progress stage_progress message now,
          appendedEvent job event_type stage progress stage_progress message now)

/-- Apply `append_job_event` where the caller discards the result (`let _ =`):
the job record is updated when the append goes through, kept otherwise. -/
def appendOrKeep (job : JobRecord) (event_type : ExportEventType) (stage : ExportStage)
    (progress : ℚ) (stage_progress : Option ℚ) (message : String) (now : ℚ) : JobRecord :=
  match append_job_event job event_type stage progress stage_progress message now with
  | some pr => pr.1
  | none => job

/-- The fresh job record built by `api.rs::create_export` (lines 74-100);
backend metadata elided. -/
def createJobRecord (job_id : String) (now : ℚ) (payload : ExportRequest) : JobRecord :=
  { job_id := job_id, created_at := now, updated_at := now, status := .queued,
    progress := 0, message := some "Queued for export", request := some payload,
    artifact := none, error := none, artifact_path := none, events := [],
    next_seq := 1, current_stage := .queued, stage_progress := 0, last_event_at := now }

/-- The cancel mutation of `api.rs::cancel_export` (lines 220-235), applied
only from `queued`/`running`; artifact file deletion is filesystem-side. -/
def cancelJobRecord (job : JobRecord) (now : ℚ) : JobRecord :=
  { job with
    status := .canceled, current_stage := .canceled, stage_progress := 100,
    progress := 100, updated_at := now, message := some "Export canceled",
    error := none, request := none, artifact := none, artifact_path := none }

/-- The claim mutation of `queue.rs::process_export_job_legacy` (lines 224-231). -/
def claimJobLegacy (job : JobRecord) (now : ℚ) : JobRecord :=
  { job with
    status := .running, progress := 5, current_stage := .transform,
    stage_progress := 0, message := some "Transforming graph data",
    updated_at := now, error := none }

/-- The claim mutation of `queue.rs::process_export_job_runpod` (lines 643-650). -/
def claimJobRunpod (job : JobRecord) (now : ℚ) : JobRecord :=
  { job with
    status := .running, progress := 2, current_stage := .transform,
    stage_progress := 0, message := some "Preparing staged payload for Runpod",
    updated_at := now, error := none }

/-- The runpod path drops the request payload right after staging it
(`queue.rs` lines 668-677); backend metadata elided. -/
def dropRequestRunpod (job : JobRecord) (now : ℚ) : JobRecord :=
  { job with
    request := none, updated_at := now }

/-- The failure mutation of `queue.rs::spawn_export_worker` (lines 158-188). -/
def failJobRecord (job : JobRecord) (error_message : String) (now : ℚ) : JobRecord :=
  { job with
    status := .failed, progress := 100, current_stage := .failed,
    stage_progress := 100, updated_at := now,
    error := some ⟨"EXPORT_FAILED", error_message⟩,
    message := some "Export failed", request := none }

/-- The completion mutation of the legacy pipeline (`queue.rs` lines 517-543). -/
def completeJobLegacy (job : JobRecord) (artifact : ExportArtifact) (path : String)
    (now : ℚ) : JobRecord :=
  { job with
    status := .completed, progress := 100, current_stage := .downloadReady,
    stage_progress := 100, message := some "Export completed", updated_at := now,
    artifact := some artifact, artifact_path := some path, error := none,
    request := none }

/-- The completion mutation of the runpod path (`queue.rs` lines 813-844); it
does not touch `request` (already dropped at staging time) and performs no
cancellation re-check. -/
def completeJobRunpod (job : JobRecord) (artifact : ExportArtifact) (path : String)
    (now : ℚ) : JobRecord :=
  { job with
    status := .completed, progress := 100, current_stage := .downloadReady,
    stage_progress := 100, message := some "Export completed", updated_at := now,
    artifact := some artifact, artifact_path := some path, error := none }

/-- The retention collector's expiry mutation
(`queue.rs::cleanup_expired_artifacts`, lines 901-918). -/
def expireJobRecord (job : JobRecord) (now : ℚ) : JobRecord :=
  { job with
    status := .expired, updated_at := now, progress := 100,
    current_stage := .expired, stage_progress := 100,
    message := some "Artifact expired and removed",
    artifact := none, artifact_path := none, events := [], next_seq := 1,
    last_event_at := now }

/-- Invariant on a job's event ring claimed by the spec: at most
`MAX_JOB_EVENTS` retained events whose `seq`s are consecutive, increasing by
one, and ending at `next_seq - 1`. -/
def seqRunInv (job : JobRecord) : Prop :=
  job.events.length ≤ MAX_JOB_EVENTS ∧
  job.events.length < job.next_seq ∧
  job.events.map ExportLogEvent.seq =
    List.range' (job.next_seq - job.events.length) job.events.length

/-! ### `main.rs`/`api.rs` — bounded job queue and submission (claims C2, C10)

The queue is `tokio::sync::mpsc::channel(queue_capacity)`.  The channel is an
external library; `mpscSend` is modelled from the tokio documentation:
`Sender::send(value).await` returns `Err(SendError)` only when the channel is
closed (all receivers dropped); when the buffer is full it *waits* for
capacity — it does not fail. -/

structure MpscQueue where
  capacity : Nat
  buffered : List String
  closed : Bool
deriving DecidableEq

inductive SendOutcome
  | ok (q : MpscQueue)
  | blocked
  | closedErr
deriving DecidableEq

/-- Behaviour of `tokio::sync::mpsc::Sender::send(..).await` (see the module
doc-comment above): error iff closed; suspend (`blocked`) iff full. -/
def mpscSend (q : MpscQueue) (v : String) : SendOutcome :=
  if q.closed then .closedErr
  else if q.capacity ≤ q.buffered.length then .blocked
  else .ok { q with buffered := q.buffered ++ [v] }

structure ApiState where
  jobs : String → Option JobRecord
  event_buses : String → Bool
  queue : MpscQueue

inductive CreateExportOutcome
  | invalidRequest400
  | queueUnavailable503
  | blockedOnFullQueue
  | accepted202 (job_id : String)
deriving DecidableEq

/-- Embedding of `api.rs::create_export` (after authentication, which is
modelled separately): validate the payload, insert the job record and its
broadcast channel, then hand the job id to the queue; on a send *error* remove
both insertions again and answer 503.  `blockedOnFullQueue` marks the handler
suspended inside `send(..).await`; the trailing "Queued for export" event
append is modelled as a step of the job transition system below. -/
def create_export (st : ApiState) (payload : ExportRequest) (job_id : String) (now : ℚ) :
    CreateExportOutcome × ApiState :=
  if payload.nodes.isEmpty ∨ payload.relationships.isEmpty then
    (.invalidRequest400, st)
  else
    let record := createJobRecord job_id now payload
    let jobs1 : String → Option JobRecord :=
      fun k => if k = job_id then some record else st.jobs k
    let buses1 : String → Bool := fun k => if k = job_id then true else st.event_buses k
    match mpscSend st.queue job_id with
    | .ok q2 =>
      (.accepted202 job_id, { jobs := jobs1, event_buses := buses1, queue := q2 })
    | .blocked =>
      (.blockedOnFullQueue, { jobs := jobs1, event_buses := buses1, queue := st.queue })
    | .closedErr =>
      (.queueUnavailable503,
       { jobs := fun k => if k = job_id then none else jobs1 k,
         event_buses := fun k => if k = job_id then false else buses1 k,
         queue := st.queue })

/-! ### Per-job lifecycle transition system (claims C3, C4)

One job record together with the worker's control position.  The worker
consumes each job id at most once and runs its pipeline sequentially; the
cancel handler, the retention collector and the submission handler's trailing
event append interleave freely.  `createAppendPending`/`cancelAppendPending`
record that `create_export`/`cancel_export` still owe their event append
(those appends run after the mutation's critical section).
`lateCreateAppend` is a ghost flag: it records that the submission append
executed after the job was already `completed`/`failed`. -/

inductive WorkerPhase
  | idle
  | working
  | stagedRunpod
  | emitCompleted
  | emitFailed
  | finished
deriving DecidableEq

structure JobSys where
  job : JobRecord
  phase : WorkerPhase
  createAppendPending : Bool
  cancelAppendPending : Bool
  lateCreateAppend : Bool

/-- Small-step relation over one job's lifecycle.  Guards are the ones the
source checks at the corresponding program points. -/
inductive JobStep : JobSys → JobSys → Prop
  | createAppend (s : JobSys) (now : ℚ) :
      s.createAppendPending = true →
      JobStep s { s with
        job := appendOrKeep s.job .stageProgress .queued 0 (some 0) "Queued for export" now,
        createAppendPending := false,
        lateCreateAppend := s.lateCreateAppend ||
          decide (s.job.status = .completed ∨ s.job.status = .failed) }
  | cancel (s : JobSys) (now : ℚ) :
      (s.job.status = .queued ∨ s.job.status = .running) →
      JobStep s { s with
        job := cancelJobRecord s.job now, cancelAppendPending := true }
  | cancelAppend (s : JobSys) (now : ℚ) :
      s.cancelAppendPending = true →
      JobStep s { s with
        job := appendOrKeep s.job .jobCanceled .canceled 100 (some 100) "Export canceled" now,
        cancelAppendPending := false }
  | expire (s : JobSys) (a : ExportArtifact) (now : ℚ) :
      s.job.status = .completed → s.job.artifact = some a → a.expires_at ≤ now →
      JobStep s { s with
        job := expireJobRecord s.job now }
  | claimSkip (s : JobSys) :
      s.phase = .idle → s.job.status = .canceled →
      JobStep s { s with phase := .finished }
  | claimLegacy (s : JobSys) (now : ℚ) :
      s.phase = .idle → ¬s.job.status = .canceled →
      JobStep s { s with
        job := claimJobLegacy s.job now, phase := .working }
  | claimRunpod (s : JobSys) (now : ℚ) :
      s.phase = .idle → ¬s.job.status = .canceled →
      JobStep s { s with
        job := claimJobRunpod s.job now, phase := .working }
  | workerAppend (s : JobSys) (et : ExportEventType) (stage : ExportStage)
      (p : ℚ) (sp : Option ℚ) (msg : String) (now : ℚ) :
      (s.phase = .working ∨ s.phase = .stagedRunpod) →
      (et = .jobStarted ∨ et = .stageProgress ∨ et = .stageHeartbeat) →
      JobStep s { s with
        job := appendOrKeep s.job et stage p sp msg now }
  | workerCancelReturn (s : JobSys) :
      (s.phase = .working ∨ s.phase = .stagedRunpod) →
      s.job.status = .canceled →
      JobStep s { s with phase := .finished }
  | workerFail (s : JobSys) (msg : String) (now : ℚ) :
      (s.phase = .working ∨ s.phase = .stagedRunpod) →
      JobStep s { s with
        job := failJobRecord s.job msg now, phase := .emitFailed }
  | stageRunpod (s : JobSys) (now : ℚ) :
      s.phase = .working →
      JobStep s { s with
        job := dropRequestRunpod s.job now, phase := .stagedRunpod }
  | finalizeLegacy (s : JobSys) (artifact : ExportArtifact) (path : String) (now : ℚ) :
      s.phase = .working → ¬s.job.status = .canceled →
      JobStep s { s with
        job := completeJobLegacy s.job artifact path now,
        phase := .emitCompleted }
  | finalizeRunpod (s : JobSys) (artifact : ExportArtifact) (path : String) (now : ℚ) :
      s.phase = .stagedRunpod →
      JobStep s { s with
        job := completeJobRunpod s.job artifact path now,
        phase := .emitCompleted }
  | emitCompletedStep (s : JobSys) (now : ℚ) :
      s.phase = .emitCompleted →
      JobStep s { s with
        job := appendOrKeep s.job .jobCompleted .downloadReady 100 (some 100)
          "Export completed" now,
        phase := .finished }
  | emitFailedStep (s : JobSys) (now : ℚ) :
      s.phase = .emitFailed →
      JobStep s { s with
        job := appendOrKeep s.job .jobFailed .failed 100 (some 100) "Export failed" now,
        phase := .finished }

/-- System state right after a successful submission. -/
def initJobSys (job_id : String) (payload : ExportRequest) (now : ℚ) : JobSys :=
  { job := createJobRecord job_id now payload, phase := .idle,
    createAppendPending := true, cancelAppendPending := false,
    lateCreateAppend := false }

def JobReachable (s0 s : JobSys) : Prop := Relation.ReflTransGen JobStep s0 s

/-- Terminal job statuses. -/
def terminalStatus (st : JobState) : Prop :=
  st = .completed ∨ st = .failed ∨ st = .canceled ∨ st = .expired

/-- Stages allowed for terminal jobs per the specification. -/
def terminalStageSet (st : ExportStage) : Prop :=
  st = .downloadReady ∨ st = .failed ∨ st = .canceled ∨ st = .expired

/-- The field constraints the specification imposes on terminal jobs. -/
def TerminalFieldsOk (job : JobRecord) : Prop :=
  job.request = none ∧ job.progress = 100 ∧ terminalStageSet job.current_stage

/-- Inductive invariant for the per-job transition system. -/
def JobSysInv (s : JobSys) : Prop :=
  (s.phase = .idle → s.job.status = .queued ∨ s.job.status = .canceled) ∧
  ((s.phase = .working ∨ s.phase = .stagedRunpod) →
    s.job.status = .running ∨ s.job.status = .canceled) ∧
  (s.phase = .stagedRunpod → s.job.request = none) ∧
  ((s.phase = .emitCompleted ∨ s.phase = .emitFailed) →
    terminalStatus s.job.status ∧ s.job.request = none) ∧
  (terminalStatus s.job.status → s.job.request = none) ∧
  (terminalStatus s.job.status → s.lateCreateAppend = false →
    s.job.progress = 100 ∧ terminalStageSet s.job.current_stage)

/-- A concrete small export request used by witnesses and counterexamples. -/
def demoRequest : ExportRequest :=
  { session_id := "s", project_name := "p", base_name := "p",
    nodes := [⟨"n1", "Function"⟩],
    relationships := [⟨"r1", "n1", "n1", "CALLS", 9/10, "self", none⟩],
    file_contents := [], semantic_enabled := false }

/-- A full, open queue at the default capacity 128. -/
def c2FullQueue : MpscQueue := ⟨128, List.replicate 128 "queued-job", false⟩

/-- A closed queue (worker receiver dropped). -/
def c10ClosedQueue : MpscQueue := ⟨128, [], true⟩

/-- States of the C4 race trace: submission, worker claim, worker completion,
then the submission handler's delayed "Queued for export" append. -/
def c4S0 : JobSys := initJobSys "j" demoRequest 0

def c4S1 : JobSys := { c4S0 with job := claimJobLegacy c4S0.job 1, phase := .working }

def c4Artifact : ExportArtifact := ⟨"p.mv2", "/v1/exports/j/download", 100, 1⟩

def c4S2 : JobSys :=
  { c4S1 with job := completeJobLegacy c4S1.job c4Artifact "p" 2, phase := .emitCompleted }

def c4S3 : JobSys :=
  { c4S2 with
    job := appendOrKeep c4S2.job .stageProgress .queued 0 (some 0) "Queued for export" 3,
    createAppendPending := false,
    lateCreateAppend := c4S2.lateCreateAppend ||
      decide (c4S2.job.status = .completed ∨ c4S2.job.status = .failed) }

/-! ### `mcp_index.rs` — side-index records, derivations and the sidecar
(claims C5, C8)

`serde_json::Value` fields (`metadata`, `manifest`, `capabilities`) are carried
as their canonical JSON serialization (a `String`): `serde_json` guarantees
`from_str(to_string(v)) == v`, so persisting `v.to_string()` and re-parsing is
the identity on this representation.  `generated_at` is carried as its RFC3339
string.  `usize` fields persisted into SQLite `INTEGER` columns go through the
`as i64` / `as usize` two's-complement casts, modelled explicitly. -/

structure NodeRecord where
  id : String
  label : String
  name : String
  file_path : String
  start_line : Option Nat
  end_line : Option Nat
  language : Option String
  uri : String
  title : String
  search_text : String
  metadata : String
deriving DecidableEq

structure EdgeRecord where
  id : String
  relation_type : String
  source_id : String
  target_id : String
  confidence : ℚ
  reason : String
  step : Option Nat
  uri : String
  search_text : String
  metadata : String
deriving DecidableEq

structure ProcessStepRecord where
  process_id : String
  step : Nat
  function_id : String
  relation_uri : String
deriving DecidableEq

structure SymbolRecord where
  symbol_norm : String
  symbol : String
  node_id : String
  file_path : String
  node_label : String
deriving DecidableEq

structure HotspotRecord where
  file_path : String
  calls_count : Nat
  node_count : Nat
  score : ℚ
deriving DecidableEq

structure CommunityMembershipRecord where
  community_id : String
  node_id : String
  node_label : String
  node_name : String
deriving DecidableEq

structure FulltextEntry where
  ref_kind : String
  ref_id : String
  uri : String
  track : String
  text : String
deriving DecidableEq

/-- `CapsuleIndex` without the derived adjacency maps, which
`build_runtime_maps` recomputes from the record lists on every construction;
the model derives them on demand (`node_by_id` below). -/
structure CapsuleIndex where
  capsule_path : String
  sidecar_path : String
  schema_version : String
  generated_at : String
  manifest : String
  capabilities : String
  nodes : List NodeRecord
  edges : List EdgeRecord
  process_steps : List ProcessStepRecord
  symbols : List SymbolRecord
  hotspots : List HotspotRecord
  community_membership : List CommunityMembershipRecord
  fulltext : List FulltextEntry
deriving DecidableEq

/-- The `node_by_id` runtime map built by `build_runtime_maps`: for each node
in order, `insert (node.id, idx)` — later nodes win on duplicate ids. -/
def node_by_id (index : CapsuleIndex) : String → Option Nat :=
  index.nodes.enum.foldl
    (fun m p => fun k => if k = p.2.id then some p.1 else m k) (fun _ => none)

/-- Rust `sort_by_key(|s| (s.process_id, s.step, s.function_id))` comparator,
as a boolean ≤ on the lexicographic key triple. -/
def stepKeyLe (a b : ProcessStepRecord) : Bool :=
  decide (a.process_id < b.process_id ∨ (a.process_id = b.process_id ∧
    (a.step < b.step ∨ (a.step = b.step ∧ a.function_id ≤ b.function_id))))

/-- The per-edge body of `derive_process_steps`'s loop. -/
def processStepOf (edge : EdgeRecord) : Option ProcessStepRecord :=
  if edge.relation_type ≠ "STEP_IN_PROCESS" then none
  else
    let pid? : Option String :=
      if strContainsSub edge.target_id "proc_" then some edge.target_id
      else if strContainsSub edge.source_id "proc_" then some edge.source_id
      else match findSub edge.uri.data "_proc_".data with
        | some pos => some (String.mk (edge.uri.data.drop (pos + 1)))
        | none => none
    match pid? with
    | none => none
    | some pid =>
      some ⟨pid, edge.step.getD 0,
        if strContainsSub edge.source_id "proc_" then edge.target_id else edge.source_id,
        edge.uri⟩

/-- Embedding of `mcp_index.rs::derive_process_steps`: collect a step per
qualifying edge, then stable-sort by `(process_id, step, function_id)`. -/
def derive_process_steps (edges : List EdgeRecord) : List ProcessStepRecord :=
  (edges.filterMap processStepOf).mergeSort stepKeyLe

/-- Process-id selection as the amended claim words it: the target endpoint
containing `"proc_"` wins, else the source endpoint containing `"proc_"`,
else the URI suffix after the first `"_proc_"` occurrence, else the edge is
skipped. -/
def specProcessId (edge : EdgeRecord) : Option String :=
  if strContainsSub edge.target_id "proc_" then some edge.target_id
  else if strContainsSub edge.source_id "proc_" then some edge.source_id
  else (findSub edge.uri.data "_proc_".data).map
    (fun pos => String.mk (edge.uri.data.drop (pos + 1)))

/-- Function-id selection as the amended claim words it: the target when the
source endpoint contains `"proc_"`, else the source. -/
def specFunctionId (edge : EdgeRecord) : String :=
  if strContainsSub edge.source_id "proc_" then edge.target_id else edge.source_id

/-- The derived step record per the amended claim. -/
def specProcessStepOf (edge : EdgeRecord) : Option ProcessStepRecord :=
  if edge.relation_type = "STEP_IN_PROCESS" then
    (specProcessId edge).map fun pid =>
      ⟨pid, edge.step.getD 0, specFunctionId edge, edge.uri⟩
  else none

/-- The STEP_IN_PROCESS edge with both endpoints containing `"proc_"` used to
refute C8 as stated. -/
def c8Edge : EdgeRecord :=
  ⟨"r1", "STEP_IN_PROCESS", "proc_a", "proc_b", 1, "", some 1, "x_proc_c", "", ""⟩

/-! #### Sidecar persistence (`persist_to_sidecar` / `load_from_sidecar`)

Each SQLite table is a list of rows in insertion order.  `INSERT` into a table
with a `TEXT PRIMARY KEY` fails (and the enclosing transaction is abandoned)
on a duplicate key — `insertPK` models this; the other tables are plain
appends.  `SELECT` without `ORDER BY` is modelled as returning rows in stored
(insertion) order; the claim needs only set equality, which this refines. -/

/-- Rust `v as i64` on a `usize` value `v < 2^64`. -/
def usizeToI64 (n : Nat) : Int :=
  if n < 2 ^ 63 then (n : Int) else (n : Int) - 2 ^ 64

/-- Rust `v as usize` on an `i64` value (two's complement wrap). -/
def i64ToUsize (i : Int) : Nat := (i % 2 ^ 64).toNat

structure NodeRow where
  node_id : String
  node_label : String
  node_name : String
  file_path : String
  start_line : Option Int
  end_line : Option Int
  language : Option String
  uri : String
  title : String
  search_text : String
  metadata_json : String
deriving DecidableEq

structure EdgeRow where
  edge_id : String
  relation_type : String
  source_id : String
  target_id : String
  confidence : ℚ
  reason : String
  step : Option Int
  uri : String
  search_text : String
  metadata_json : String
deriving DecidableEq

structure StepRow where
  process_id : String
  step : Int
  function_id : String
  relation_uri : String
deriving DecidableEq

structure HotspotRow where
  file_path : String
  calls_count : Int
  node_count : Int
  score : ℚ
deriving DecidableEq

structure Sidecar where
  meta : List (String × String)
  nodes_by_id : List NodeRow
  nodes_by_label : List (String × String)
  nodes_by_file : List (String × String)
  symbols_by_name_normalized : List SymbolRecord
  edges : List EdgeRow
  edges_by_source_type : List (String × String × String × String)
  edges_by_target_type : List (String × String × String × String)
  process_steps_by_process_id : List StepRow
  fulltext_lexical_index : List FulltextEntry
  hotspots : List HotspotRow
  community_membership : List CommunityMembershipRecord
deriving DecidableEq

/-- `INSERT` into a table whose first-column `TEXT PRIMARY KEY` is `keyOf`. -/
def insertPK {ρ : Type} (keyOf : ρ → String) (rows : List ρ) (r : ρ) :
    Except String (List ρ) :=
  if rows.any (fun x => keyOf x = keyOf r) then .error "UNIQUE constraint failed"
  else .ok (rows ++ [r])

def nodeToRow (n : NodeRecord) : NodeRow :=
  ⟨n.id, n.label, n.name, n.file_path, n.start_line.map usizeToI64,
   n.end_line.map usizeToI64, n.language, n.uri, n.title, n.search_text, n.metadata⟩

def rowToNode (r : NodeRow) : NodeRecord :=
  ⟨r.node_id, r.node_label, r.node_name, r.file_path, r.start_line.map i64ToUsize,
   r.end_line.map i64ToUsize, r.language, r.uri, r.title, r.search_text, r.metadata_json⟩

def edgeToRow (e : EdgeRecord) : EdgeRow :=
  ⟨e.id, e.relation_type, e.source_id, e.target_id, e.confidence, e.reason,
   e.step.map usizeToI64, e.uri, e.search_text, e.metadata⟩

def rowToEdge (r : EdgeRow) : EdgeRecord :=
  ⟨r.edge_id, r.relation_type, r.source_id, r.target_id, r.confidence, r.reason,
   r.step.map i64ToUsize, r.uri, r.search_text, r.metadata_json⟩

def stepToRow (st : ProcessStepRecord) : StepRow :=
  ⟨st.process_id, usizeToI64 st.step, st.function_id, st.relation_uri⟩

def rowToStep (r : StepRow) : ProcessStepRecord :=
  ⟨r.process_id, i64ToUsize r.step, r.function_id, r.relation_uri⟩

def hotspotToRow (h : HotspotRecord) : HotspotRow :=
  ⟨h.file_path, usizeToI64 h.calls_count, usizeToI64 h.node_count, h.score⟩

/-- The per-node loop body of `persist_to_sidecar` (lines 947-972). -/
def persistNodeStep (db : Sidecar) (node : NodeRecord) : Except String Sidecar := do
  let nbi ← insertPK NodeRow.node_id db.nodes_by_id (nodeToRow node)
  pure { db with
    nodes_by_id := nbi,
    nodes_by_label := db.nodes_by_label ++ [(node.label, node.id)],
    nodes_by_file := db.nodes_by_file ++ [(node.file_path, node.id)] }

/-- The per-edge loop body of `persist_to_sidecar` (lines 987-1011). -/
def persistEdgeStep (db : Sidecar) (edge : EdgeRecord) : Except String Sidecar := do
  let er ← insertPK EdgeRow.edge_id db.edges (edgeToRow edge)
  pure { db with
    edges := er,
    edges_by_source_type := db.edges_by_source_type ++
      [(edge.source_id, edge.relation_type, edge.id, edge.target_id)],
    edges_by_target_type := db.edges_by_target_type ++
      [(edge.target_id, edge.relation_type, edge.id, edge.source_id)] }

/-- The per-hotspot loop body of `persist_to_sidecar` (lines 1027-1037). -/
def persistHotspotStep (db : Sidecar) (h : HotspotRecord) : Except String Sidecar := do
  let hr ← insertPK HotspotRow.file_path db.hotspots (hotspotToRow h)
  pure { db with hotspots := hr }

/-- The sidecar state after the DELETE batch and the four meta inserts (whose
keys are four distinct constants, so their PK checks always pass). -/
def initSidecar (index : CapsuleIndex) : Sidecar :=
  { meta := [("index_schema_version", index.schema_version),
             ("generated_at", index.generated_at),
             ("manifest_json", index.manifest),
             ("capabilities_json", index.capabilities)],
    nodes_by_id := [], nodes_by_label := [], nodes_by_file := [],
    symbols_by_name_normalized := [], edges := [], edges_by_source_type := [],
    edges_by_target_type := [], process_steps_by_process_id := [],
    fulltext_lexical_index := [], hotspots := [], community_membership := [] }

/-- Embedding of `mcp_index.rs::persist_to_sidecar`, after the schema/DELETE
batch has produced empty tables: the per-record inserts in source order,
inside one transaction (an insert error aborts the whole persist). -/
def persist_to_sidecar (index : CapsuleIndex) : Except String Sidecar := do
  let db ← index.nodes.foldlM persistNodeStep (initSidecar index)
  let db := { db with symbols_by_name_normalized :=
    db.symbols_by_name_normalized ++ index.symbols }
  let db ← index.edges.foldlM persistEdgeStep db
  let db := { db with process_steps_by_process_id :=
    db.process_steps_by_process_id ++ index.process_steps.map stepToRow }
  let db := { db with fulltext_lexical_index :=
    db.fulltext_lexical_index ++ index.fulltext }
  let db ← index.hotspots.foldlM persistHotspotStep db
  pure { db with community_membership :=
    db.community_membership ++ index.community_membership }

/-- Embedding of `mcp_index.rs::sidecar_path_for_capsule` on the path-string
model (parent-directory handling elided). -/
def sidecar_path_for_capsule (capsule_path : String) : String :=
  capsule_path ++ ".index.v1.sqlite"

/-- Embedding of `mcp_index.rs::load_from_sidecar` reading the modelled
sidecar: meta values with their `unwrap_or` defaults, then each table mapped
back into records ("now" stands for the `Utc::now()` fallback timestamp). -/
def load_from_sidecar (db : Sidecar) (capsule_path : String) : CapsuleIndex :=
  { capsule_path := capsule_path,
    sidecar_path := sidecar_path_for_capsule capsule_path,
    schema_version := ((db.meta.lookup "index_schema_version").getD
      "gitnexus.mcp.index.v1"),
    generated_at := (db.meta.lookup "generated_at").getD "now",
    manifest := (db.meta.lookup "manifest_json").getD "null",
    capabilities := (db.meta.lookup "capabilities_json").getD "null",
    nodes := db.nodes_by_id.map rowToNode,
    edges := db.edges.map rowToEdge,
    process_steps := db.process_steps_by_process_id.map rowToStep,
    symbols := db.symbols_by_name_normalized,
    hotspots := db.hotspots.map (fun r =>
      ⟨r.file_path, i64ToUsize r.calls_count, i64ToUsize r.node_count, r.score⟩),
    community_membership := db.community_membership,
    fulltext := db.fulltext_lexical_index }

/-- The `usize` fields of an index are genuine `usize` values (< 2^64). -/
def IndexUsizeWF (index : CapsuleIndex) : Prop :=
  (∀ n ∈ index.nodes, (∀ v ∈ n.start_line, v < 2 ^ 64) ∧ (∀ v ∈ n.end_line, v < 2 ^ 64)) ∧
  (∀ e ∈ index.edges, ∀ v ∈ e.step, v < 2 ^ 64) ∧
  (∀ st ∈ index.process_steps, st.step < 2 ^ 64)

/-- A small concrete index used to exercise the sidecar round-trip. -/
def c5Index : CapsuleIndex :=
  { capsule_path := "demo.mv2"
    sidecar_path := "demo.mv2.index.v1.sqlite"
    schema_version := "1"
    generated_at := "2024-01-01T00:00:00Z"
    manifest := "{}"
    capabilities := "[]"
    nodes := [⟨"n1", "Function", "main", "src/main.rs", some 1, some 10,
      some "rust", "gn://node/n1", "main", "main src/main.rs", "{}"⟩]
    edges := [⟨"r1", "CALLS", "n1", "n1", 1, "self", some 0,
      "gn://edge/r1", "", "{}"⟩]
    process_steps := [⟨"proc_a", 1, "n1", "gn://edge/r1"⟩]
    symbols := []
    hotspots := [⟨"src/main.rs", 3, 1, 2⟩]
    community_membership := []
    fulltext := [] }

def c5Db : Sidecar := (persist_to_sidecar c5Index).toOption.getD (initSidecar c5Index)

/-! ### `mcp_api.rs` — text normalization, ranking, cursors, symbol lookup
(claims C6, C9)

The `serde_json` argument object is modelled by the three fields the lookup
tool reads; `f64` scores are modelled by rationals (every score in play is an
exact decimal and `partial_cmp` never sees a NaN), so 0.92 is 23/25, 0.78 is
39/50 and 0.2 is 1/5. -/

/-- Rust `char::to_ascii_lowercase`. -/
def toAsciiLower (c : Char) : Char :=
  if 'A' ≤ c ∧ c ≤ 'Z' then Char.ofNat (c.toNat + 32) else c

/-- Rust `char::is_ascii_alphanumeric`. -/
def isAsciiAlphanumeric (c : Char) : Bool :=
  ('0' ≤ c ∧ c ≤ '9') || ('a' ≤ c ∧ c ≤ 'z') || ('A' ≤ c ∧ c ≤ 'Z')

/-- The per-character map inside `normalize_text`: keep ASCII alphanumerics and
underscore (lower-cased), blank out everything else. -/
def normChar (c : Char) : Char :=
  if isAsciiAlphanumeric c || c = '_' then toAsciiLower c else ' '

/-- `normalize_text`: map `normChar` over the characters, then
`split_whitespace` (split on Unicode whitespace, dropping empty fragments) and
re-join with single spaces. -/
def normalize_text (s : String) : String :=
  String.mk (List.intercalate [' ']
    (((s.data.map normChar).splitOnP rustIsWhitespace).filter (fun w => !w.isEmpty)))

/-- The JSON payload built for one symbol-lookup item. -/
structure SymbolPayload where
  symbol : String
  symbolNorm : String
  nodeId : String
  filePath : String
  nodeLabel : String
  nodeUri : String
  score : ℚ
deriving DecidableEq

/-- `RankedItem` from `mcp_api.rs`. -/
structure RankedItem where
  score : ℚ
  key : String
  payload : SymbolPayload
deriving DecidableEq

/-- `compare_ranked` as a sorting predicate (`sort_by` keeps `a` before `b`
when the comparison is not `Greater`): score descending, then key ascending. -/
def rankedLe (a b : RankedItem) : Bool :=
  decide (b.score < a.score) || (decide (a.score = b.score) && decide (a.key ≤ b.key))

/-- Rust `str::split_once("::")`: split at the first occurrence of `"::"`. -/
def splitOnceCC : List Char → Option (List Char × List Char)
  | [] => none
  | c :: rest =>
    if c = ':' ∧ rest.head? = some ':' then some ([], rest.tail)
    else
      match splitOnceCC rest with
      | some (pre, post) => some (c :: pre, post)
      | none => none

/-- Split at the first `'.'` (used by the float grammar below). -/
def splitOnceDot : List Char → Option (List Char × List Char)
  | [] => none
  | c :: rest =>
    if c = '.' then some ([], rest)
    else
      match splitOnceDot rest with
      | some (pre, post) => some (c :: pre, post)
      | none => none

/-- ASCII decimal digit test. -/
def isDigitChar (c : Char) : Bool := '0' ≤ c ∧ c ≤ '9'

/-- Parse a non-empty all-digit run as a natural number (the digit grammar
shared by Rust's numeric parsers). -/
def parseNatDigits (l : List Char) : Option Nat :=
  if l.isEmpty || !l.all isDigitChar then none
  else some (l.foldl (fun a c => a * 10 + (c.toNat - 48)) 0)

/-- The fragment of Rust's `f64` grammar produced by 6-decimal formatting:
integer digits, optionally a dot and fractional digits; the value is the exact
rational. -/
def parsePosF64 (l : List Char) : Option ℚ :=
  match splitOnceDot l with
  | none => (parseNatDigits l).map (fun n => (n : ℚ))
  | some (ip, fp) =>
    match parseNatDigits ip, parseNatDigits fp with
    | some i, some f => some ((i : ℚ) + (f : ℚ) / (10 : ℚ) ^ fp.length)
    | _, _ => none

/-- `str::parse::<f64>` on the strings reachable from cursor decoding: an
optional leading minus sign, then the positive grammar. -/
def parseF64 (s : String) : Option ℚ :=
  match s.data with
  | [] => none
  | c :: rest =>
    if c = '-' then (parsePosF64 rest).map (fun q => -q) else parsePosF64 (c :: rest)

/-- ASCII digit character for a digit value. -/
def digitChar (d : Nat) : Char := Char.ofNat (48 + d)

/-- Decimal printer for natural numbers. -/
def natToDecChars (n : Nat) : List Char :=
  if n = 0 then ['0'] else ((Nat.digits 10 n).map digitChar).reverse

/-- Zero-pad a decimal digit string on the left to six characters. -/
def pad6 (n : Nat) : List Char :=
  List.replicate (6 - (natToDecChars n).length) '0' ++ natToDecChars n

/-- Fixed-point formatting with precision 6 on the rational model of `f64`
(Rust `format!` with `:.6`): sign, integer part, dot, exactly six fractional
digits of the magnitude rounded to six decimal places. -/
def fmt6 (q : ℚ) : String :=
  let m : Nat := (round (|q| * 10 ^ 6)).toNat
  let body := natToDecChars (m / 10 ^ 6) ++ '.' :: pad6 (m % 10 ^ 6)
  String.mk (if q < 0 then '-' :: body else body)

/-- Rounding to six decimal places — the value denoted by the `:.6`-formatted
text of `q`. -/
def roundTo6 (q : ℚ) : ℚ :=
  (if q < 0 then -1 else 1) * (((round (|q| * 10 ^ 6) : ℤ) : ℚ) / 10 ^ 6)

/-- `encode_cursor`: the formatted score, `"::"`, then the key. -/
def encode_cursor (score : ℚ) (key : String) : String :=
  String.mk ((fmt6 score).data ++ ':' :: ':' :: key.data)

/-- `decode_cursor`: split at the first `"::"` and parse the left part as a
float. -/
def decode_cursor (cursor : String) : Option (ℚ × String) :=
  match splitOnceCC cursor.data with
  | none => none
  | some (sc, key) =>
    match parseF64 (String.mk sc) with
    | none => none
    | some q => some (q, String.mk key)

/-- `PaginatedResult` from `mcp_api.rs` (payloads specialised to symbol
items). -/
structure PaginatedResult where
  items : List SymbolPayload
  next_cursor : Option String
  truncated : Bool
deriving DecidableEq

/-- `paginate_ranked`: stable sort by `compare_ranked` (Rust `sort_by` =
stable merge sort), skip past the cursor position, take `limit` rows and
report a continuation cursor when rows remain. -/
def paginate_ranked (rows : List RankedItem) (limit : Nat) (cursor : Option String) :
    PaginatedResult :=
  let sorted := rows.mergeSort rankedLe
  let start_idx :=
    match cursor with
    | none => 0
    | some c =>
      match decode_cursor c with
      | none => 0
      | some (cs, ck) =>
        match sorted.findIdx? (fun row =>
            decide (row.score < cs) ||
            (decide (|row.score - cs| < 1 / 10 ^ 9) && decide (ck < row.key))) with
        | some i => i
        | none => sorted.length
  let end_idx := min (start_idx + limit) sorted.length
  let selected := (sorted.drop start_idx).take (end_idx - start_idx)
  { items := selected.map RankedItem.payload
    next_cursor :=
      if end_idx < sorted.length then
        (sorted[end_idx - 1]?).map (fun row => encode_cursor row.score row.key)
      else none
    truncated := decide (end_idx < sorted.length) }

/-- The argument-object fields read by `tool_symbol_lookup`. -/
structure ToolArgs where
  query : Option String
  limit : Option Nat
  cursor : Option String

/-- The tool-error cases reachable from `tool_symbol_lookup`. -/
inductive ToolError where
  | invalidArgument : String → ToolError
deriving DecidableEq

/-- `parse_limit`: the `limit` argument (a u64, cast to usize) or the default,
clamped to `[1, max_limit]`. -/
def parse_limit (args : ToolArgs) (default_limit max_limit : Nat) : Nat :=
  min (max (args.limit.getD default_limit) 1) max_limit

/-- `parse_cursor`. -/
def parse_cursor (args : ToolArgs) : Option String := args.cursor

/-- `require_str` for the `query` field: present and non-blank after trim. -/
def require_str (o : Option String) : Except ToolError String :=
  match o with
  | some s =>
    if (rustTrim s).isEmpty then
      .error (.invalidArgument "Missing required string field: query")
    else .ok s
  | none => .error (.invalidArgument "Missing required string field: query")

/-- One iteration of the symbol-lookup loop on a matching record: the score
(equality 1.0, prefix 0.92, otherwise 0.78), the `symbol_norm::node_id`
tiebreak key, and the payload (node URI looked up through the runtime map,
defaulting to the empty string). -/
def symbolRow (index : CapsuleIndex) (norm : String) (s : SymbolRecord) : RankedItem :=
  let score : ℚ :=
    if s.symbol_norm = norm then 1
    else if norm.data.isPrefixOf s.symbol_norm.data then 23 / 25
    else 39 / 50
  let node_uri :=
    (((node_by_id index s.node_id).bind (fun idx => index.nodes[idx]?)).map
      NodeRecord.uri).getD ""
  { score := score
    key := s.symbol_norm ++ "::" ++ s.node_id
    payload :=
      { symbol := s.symbol
        symbolNorm := s.symbol_norm
        nodeId := s.node_id
        filePath := s.file_path
        nodeLabel := s.node_label
        nodeUri := node_uri
        score := score } }

/-- `tool_symbol_lookup`, returning the pagination result and the confidence
score it reports. -/
def tool_symbol_lookup (index : CapsuleIndex) (args : ToolArgs) :
    Except ToolError (PaginatedResult × ℚ) :=
  match require_str args.query with
  | .error e => .error e
  | .ok query =>
    let norm := normalize_text query
    if norm.isEmpty then
      .error (.invalidArgument "query cannot be empty after normalization")
    else
      let limit := parse_limit args 20 100
      let cursor := parse_cursor args
      let rows := (index.symbols.filter
        (fun s => strContainsSub s.symbol_norm norm)).map (symbolRow index norm)
      let pagination := paginate_ranked rows limit cursor
      let conf : ℚ := if pagination.items.isEmpty then 1 / 5 else 23 / 25
      .ok (pagination, conf)

/-- Spec-side scoring, following the claim's words: 1.0 on equality, 0.92 on
prefix, 0.78 on (mere) substring. -/
def specSymbolScore (norm : String) (s : SymbolRecord) : ℚ :=
  if s.symbol_norm = norm then 1
  else if norm.data.isPrefixOf s.symbol_norm.data then 23 / 25
  else 39 / 50

/-- Spec-side item for a matching symbol record. -/
def specSymbolItem (index : CapsuleIndex) (norm : String) (s : SymbolRecord) :
    SymbolPayload :=
  { symbol := s.symbol
    symbolNorm := s.symbol_norm
    nodeId := s.node_id
    filePath := s.file_path
    nodeLabel := s.node_label
    nodeUri :=
      (((node_by_id index s.node_id).bind (fun idx => index.nodes[idx]?)).map
        NodeRecord.uri).getD ""
    score := specSymbolScore norm s }

/-- Spec-side ordering on returned items: score descending, then the
`symbolNorm::nodeId` tiebreak key ascending. -/
def specItemLe (a b : SymbolPayload) : Prop :=
  b.score < a.score ∨
    (a.score = b.score ∧
      a.symbolNorm ++ "::" ++ a.nodeId ≤ b.symbolNorm ++ "::" ++ b.nodeId)

/-- A small concrete index for the symbol-lookup scenario: an exact match, a
prefix match and a substring match for the normalized query `"foo"`. -/
def c6Index : CapsuleIndex :=
  { capsule_path := "demo.mv2"
    sidecar_path := "demo.mv2.index.v1.sqlite"
    schema_version := "1"
    generated_at := "2024-01-01T00:00:00Z"
    manifest := "{}"
    capabilities := "[]"
    nodes := []
    edges := []
    process_steps := []
    symbols := [⟨"foo", "Foo", "n1", "a.rs", "Function"⟩,
      ⟨"foo_bar", "foo_bar", "n2", "b.rs", "Function"⟩,
      ⟨"xfoo", "xFoo", "n3", "c.rs", "Function"⟩]
    hotspots := []
    community_membership := []
    fulltext := [] }

/-- Arguments exercising the lookup: query `"Foo"`, default limit, no cursor. -/
def c6Args : ToolArgs := ⟨some "Foo", none, none⟩

/-! ## Theorems -/

/-- Acceptance through `verify_bearer` coincides with the inline check of the
`/mcp` handler: both reduce to "a bearer token was extracted and its trim
equals the configured key". -/
theorem verifyAccepts_eq_mcpAuthAccepts (h : HeaderMap) (key : String) :
    (match verify_bearer h key with | .ok _ => true | .error _ => false)
      = mcpAuthAccepts h key := by
  unfold verify_bearer mcpAuthAccepts
  cases extract_bearer_token h with
  | error e => rfl
  | ok token =>
    by_cases htk : rustTrim token = key
    · simp [htk]
    · simp [htk]

/-- Characterization of successful bearer-token extraction. -/
theorem extract_ok_iff (h : HeaderMap) (t : String) :
    extract_bearer_token h = .ok t ↔
      ∃ raw, h.authorization = some raw ∧ raw.data.all isHeaderStrChar = true ∧
        stripPrefixList "Bearer ".data raw.data = some t.data := by
  unfold extract_bearer_token
  cases ha : h.authorization with
  | none =>
    constructor
    · intro hc; cases hc
    · rintro ⟨raw, hraw, -⟩; cases hraw
  | some raw =>
    simp only []
    by_cases hall : raw.data.all isHeaderStrChar
    · rw [if_pos hall]
      cases hs : stripPrefixList "Bearer ".data raw.data with
      | none =>
        constructor
        · intro hc; cases hc
        · rintro ⟨raw2, hraw2, -, hs2⟩
          obtain rfl := Option.some.inj hraw2
          rw [hs] at hs2; cases hs2
      | some token =>
        constructor
        · intro hok
          obtain rfl := Except.ok.inj hok
          exact ⟨raw, rfl, hall, hs⟩
        · rintro ⟨raw2, hraw2, -, hs2⟩
          obtain rfl := Option.some.inj hraw2
          rw [hs] at hs2
          obtain htd := Option.some.inj hs2
          rw [htd]
    · rw [if_neg hall]
      constructor
      · intro hc; cases hc
      · rintro ⟨raw2, hraw2, hall2, -⟩
        obtain rfl := Option.some.inj hraw2
        exact absurd hall2 hall

/-- Characterization of the `/mcp` inline authentication check. -/
theorem mcpAuthAccepts_iff (h : HeaderMap) (key : String) :
    mcpAuthAccepts h key = true ↔
      ∃ raw token, h.authorization = some raw ∧ raw.data.all isHeaderStrChar = true ∧
        stripPrefixList "Bearer ".data raw.data = some token ∧
        rustTrim (String.mk token) = key := by
  unfold mcpAuthAccepts
  cases he : extract_bearer_token h with
  | error e =>
    constructor
    · intro hc; cases hc
    · rintro ⟨raw, token, hraw, hall, hs, -⟩
      have hok : extract_bearer_token h = .ok (String.mk token) :=
        (extract_ok_iff h (String.mk token)).mpr ⟨raw, hraw, hall, hs⟩
      rw [he] at hok; cases hok
  | ok token =>
    obtain ⟨raw, hraw, hall, hs⟩ := (extract_ok_iff h token).mp he
    constructor
    · intro hacc
      exact ⟨raw, token.data, hraw, hall, hs, of_decide_eq_true hacc⟩
    · rintro ⟨raw2, token2, hraw2, hall2, hs2, htr⟩
      have hok : extract_bearer_token h = .ok (String.mk token2) :=
        (extract_ok_iff h (String.mk token2)).mpr ⟨raw2, hraw2, hall2, hs2⟩
      rw [he] at hok
      obtain rfl := Except.ok.inj hok
      exact decide_eq_true htr

/-- C1 counterexample: with configured key `"sek"`, the request header
`Authorization: Bearer sek ` (trailing space) carries the bearer token
`"sek "`, which is not byte-for-byte equal to the key, yet the non-`/healthz`
route accepts it — `verify_bearer` compares the token only after `trim()`. -/
theorem C1_not_byte_for_byte :
    routeAuthAccepts .createExport ⟨some "Bearer sek "⟩ "sek" = true ∧
    extract_bearer_token ⟨some "Bearer sek "⟩ = .ok "sek " ∧
    ("sek " : String) ≠ "sek" := by
  refine ⟨by decide, rfl, by decide⟩

/-- C1 (amended): for every route other than `/healthz`, the request passes
authentication iff the `Authorization` header is present, readable as a
string, of the form `Bearer <token>`, and the token — after trimming
surrounding whitespace — equals the configured API key; every authentication
failure is reported with HTTP status 401. -/
theorem C1_trimmed_bearer_auth (r : Route) (h : HeaderMap) (key : String)
    (hr : r ≠ .healthz) :
    (routeAuthAccepts r h key = true ↔
      ∃ raw token, h.authorization = some raw ∧ raw.data.all isHeaderStrChar = true ∧
        stripPrefixList "Bearer ".data raw.data = some token ∧
        rustTrim (String.mk token) = key) ∧
    (∀ e, verify_bearer h key = .error e → authErrorStatus e = 401) := by
  refine ⟨?_, fun e _ => rfl⟩
  have hmcp := mcpAuthAccepts_iff h key
  have hv := verifyAccepts_eq_mcpAuthAccepts h key
  cases r with
  | healthz => exact absurd rfl hr
  | mcp => exact hmcp
  | createExport => rw [show routeAuthAccepts .createExport h key =
      (match verify_bearer h key with | .ok _ => true | .error _ => false) from rfl, hv]; exact hmcp
  | getExport => rw [show routeAuthAccepts .getExport h key =
      (match verify_bearer h key with | .ok _ => true | .error _ => false) from rfl, hv]; exact hmcp
  | cancelExport => rw [show routeAuthAccepts .cancelExport h key =
      (match verify_bearer h key with | .ok _ => true | .error _ => false) from rfl, hv]; exact hmcp
  | getExportEvents => rw [show routeAuthAccepts .getExportEvents h key =
      (match verify_bearer h key with | .ok _ => true | .error _ => false) from rfl, hv]; exact hmcp
  | streamExportEvents => rw [show routeAuthAccepts .streamExportEvents h key =
      (match verify_bearer h key with | .ok _ => true | .error _ => false) from rfl, hv]; exact hmcp
  | downloadExport => rw [show routeAuthAccepts .downloadExport h key =
      (match verify_bearer h key with | .ok _ => true | .error _ => false) from rfl, hv]; exact hmcp

/-- Witness for `C1_trimmed_bearer_auth` at a concrete accepted request. -/
theorem C1_trimmed_bearer_auth_witness :
    routeAuthAccepts .mcp ⟨some "Bearer k"⟩ "k" = true :=
  ((C1_trimmed_bearer_auth .mcp ⟨some "Bearer k"⟩ "k" (by decide)).1).mpr
    ⟨"Bearer k", "k".data, rfl, by decide, by decide, by decide⟩

/-- C7: `RateLimiter::check` implements the specified token bucket.  With the
constructor's floors applied (`R := max(R₀,1)`, `B := max(B₀,1)`) and a
well-formed stored bucket (tokens within `[0, capacity]`, as every bucket the
limiter ever stores is): a missing bucket starts at capacity `max(B, R)`;
tokens are restored by `elapsed × R/60` and capped at capacity; the call
allows and deducts exactly one token iff at least one token is available; and
the disclosed headers are `limit = R`, `remaining = ⌊tokens after⌋`, and
`reset = ⌈(1 − tokens)/refill⌉` in deficit, else 0. -/
theorem C7_rate_limiter_check (pm b : Nat) (buckets : String → Option BucketState)
    (key : String) (now : ℚ)
    (hwf : ∀ bk, buckets key = some bk →
      0 ≤ bk.tokens ∧ bk.tokens ≤ specBucketCapacity (RateLimiter.new pm b)) :
    (((RateLimiter.new pm b).check buckets key now).1.allowed = true ↔
      1 ≤ specBucketRestored (RateLimiter.new pm b) buckets key now) ∧
    ((((RateLimiter.new pm b).check buckets key now).2 key).map BucketState.tokens =
      some (specBucketAfter (RateLimiter.new pm b) buckets key now)) ∧
    (((RateLimiter.new pm b).check buckets key now).1.headers.limit =
      (RateLimiter.new pm b).per_minute) ∧
    ((((RateLimiter.new pm b).check buckets key now).1.headers.remaining : ℤ) =
      ⌊specBucketAfter (RateLimiter.new pm b) buckets key now⌋) ∧
    ((((RateLimiter.new pm b).check buckets key now).1.headers.reset_seconds : ℤ) =
      if specBucketAfter (RateLimiter.new pm b) buckets key now < 1
      then ⌈(1 - specBucketAfter (RateLimiter.new pm b) buckets key now) /
             specBucketRefill (RateLimiter.new pm b)⌉
      else 0) := by
  set rl : RateLimiter := RateLimiter.new pm b with hrl
  have hpm : 1 ≤ rl.per_minute := le_max_right pm 1
  have hcap0 : (0 : ℚ) ≤ specBucketCapacity rl := by
    unfold specBucketCapacity; positivity
  have hprev : 0 ≤ (specBucketPrev rl buckets key now).tokens ∧
      (specBucketPrev rl buckets key now).tokens ≤ specBucketCapacity rl := by
    unfold specBucketPrev
    cases hbk : buckets key with
    | none => exact ⟨hcap0, le_refl _⟩
    | some bk => exact hwf bk hbk
  have hrefill_pos : 0 < specBucketRefill rl := by
    unfold specBucketRefill
    have hpos : (0 : ℚ) < (rl.per_minute : ℚ) := by
      exact_mod_cast Nat.lt_of_lt_of_le Nat.zero_lt_one hpm
    positivity
  set prev : BucketState := specBucketPrev rl buckets key now with hprevdef
  set elapsed : ℚ := max (now - prev.last_refill) 0 with helapdef
  have helapsed0 : (0 : ℚ) ≤ elapsed := le_max_right _ _
  set b1 : BucketState :=
    if 0 < elapsed then
      ⟨min (prev.tokens + elapsed * specBucketRefill rl) (specBucketCapacity rl), now⟩
    else prev with hb1def
  set b2 : BucketState := if 1 ≤ b1.tokens then ⟨b1.tokens - 1, b1.last_refill⟩ else b1
    with hb2def
  have hallowed : (rl.check buckets key now).1.allowed = decide (1 ≤ b1.tokens) := rfl
  have hmap : (rl.check buckets key now).2 key = some b2 := if_pos rfl
  have hrem : (rl.check buckets key now).1.headers.remaining = (max (⌊b2.tokens⌋) 0).toNat := rfl
  have hreset : (rl.check buckets key now).1.headers.reset_seconds =
      (if max (1 - b2.tokens) 0 ≤ 0 then 0
       else (⌈max (1 - b2.tokens) 0 / specBucketRefill rl⌉).toNat) := rfl
  have hlimit : (rl.check buckets key now).1.headers.limit = rl.per_minute := rfl
  have hb1tok : b1.tokens = specBucketRestored rl buckets key now := by
    rw [hb1def]
    by_cases he : 0 < elapsed
    · rw [if_pos he]
      unfold specBucketRestored
      rw [← hprevdef, ← helapdef]
    · rw [if_neg he]
      have hz : elapsed = 0 := le_antisymm (not_lt.mp he) helapsed0
      unfold specBucketRestored
      rw [← hprevdef, ← helapdef, hz, zero_mul, add_zero, min_eq_left hprev.2]
  have hrest0 : 0 ≤ specBucketRestored rl buckets key now := by
    rw [← hb1tok, hb1def]
    by_cases he : 0 < elapsed
    · rw [if_pos he]
      exact le_min (add_nonneg hprev.1 (mul_nonneg helapsed0 (le_of_lt hrefill_pos))) hcap0
    · rw [if_neg he]; exact hprev.1
  have hb2tok : b2.tokens = specBucketAfter rl buckets key now := by
    rw [hb2def]
    unfold specBucketAfter
    by_cases h1 : 1 ≤ b1.tokens
    · rw [if_pos h1, if_pos (hb1tok ▸ h1)]
      simp only [hb1tok]
    · rw [if_neg h1, if_neg (fun hc => h1 (hb1tok ▸ hc))]
      exact hb1tok
  have hafter0 : 0 ≤ specBucketAfter rl buckets key now := by
    unfold specBucketAfter
    by_cases h1 : 1 ≤ specBucketRestored rl buckets key now
    · rw [if_pos h1]; linarith
    · rw [if_neg h1]; exact hrest0
  refine ⟨?_, ?_, hlimit, ?_, ?_⟩
  · rw [hallowed, decide_eq_true_eq, hb1tok]
  · rw [hmap]
    exact congrArg some hb2tok
  · rw [hrem]
    have hfl0 : 0 ≤ ⌊b2.tokens⌋ := by
      rw [hb2tok]; exact Int.floor_nonneg.mpr hafter0
    rw [max_eq_left hfl0, Int.toNat_of_nonneg hfl0, hb2tok]
  · rw [hreset]
    by_cases hdef : specBucketAfter rl buckets key now < 1
    · have h1 : (0 : ℚ) < 1 - b2.tokens := by rw [hb2tok]; linarith
      have hmax : max (1 - b2.tokens) 0 = 1 - b2.tokens := max_eq_left (le_of_lt h1)
      rw [hmax, if_neg (not_le.mpr h1), if_pos hdef]
      have hq : (0 : ℚ) < (1 - b2.tokens) / specBucketRefill rl :=
        div_pos h1 hrefill_pos
      have hc0 : 0 ≤ ⌈(1 - b2.tokens) / specBucketRefill rl⌉ :=
        le_of_lt (Int.ceil_pos.mpr hq)
      rw [Int.toNat_of_nonneg hc0, hb2tok]
    · have h1 : 1 - b2.tokens ≤ 0 := by rw [hb2tok]; linarith [not_lt.mp hdef]
      have hmax : max (1 - b2.tokens) 0 = 0 := max_eq_right h1
      rw [hmax, if_pos (le_refl (0 : ℚ)), if_neg hdef]
      rfl

/-- Witness for `C7_rate_limiter_check`: a first call on a fresh bucket with
rate 60/min and burst 1 is allowed. -/
theorem C7_rate_limiter_check_witness :
    (((RateLimiter.new 60 1).check (fun _ => none) "k" 0).1.allowed = true) ∧
    ((RateLimiter.new 60 1).check (fun _ => none) "k" 0).1.headers.limit = 60 :=
  ⟨((C7_rate_limiter_check 60 1 (fun _ => none) "k" 0
      (fun bk hbk => by cases hbk)).1).mpr
      (by norm_num [specBucketRestored, specBucketPrev, specBucketCapacity,
        specBucketRefill, RateLimiter.new, Option.getD]),
   (C7_rate_limiter_check 60 1 (fun _ => none) "k" 0 (fun bk hbk => by cases hbk)).2.2.1⟩

set_option maxRecDepth 8000 in
/-- C2: with the queue full but the worker alive (channel open),
`queue_tx.send(job_id).await` does not fail — it waits for capacity — so
`create_export` suspends inside the hand-off instead of answering
503 `QUEUE_UNAVAILABLE`.  The 503 branch is reachable only when the channel is
closed.  Evaluated at a concrete full queue of capacity 128. -/
theorem C2_full_queue_blocks_instead_of_503 :
    mpscSend c2FullQueue "j1" = .blocked ∧
    (create_export ⟨fun _ => none, fun _ => false, c2FullQueue⟩ demoRequest "j1" 0).1 =
      .blockedOnFullQueue ∧
    CreateExportOutcome.blockedOnFullQueue ≠ .queueUnavailable503 := by
  refine ⟨rfl, rfl, by decide⟩

/-- C10: when the queue hand-off send errors, `create_export` removes the job
record and the broadcast channel it just inserted and answers 503; afterwards
neither map has an entry for the job id. -/
theorem C10_rollback_on_send_error (st : ApiState) (payload : ExportRequest)
    (job_id : String) (now : ℚ)
    (hpl : ¬(payload.nodes.isEmpty ∨ payload.relationships.isEmpty))
    (hsend : mpscSend st.queue job_id = .closedErr) :
    (create_export st payload job_id now).1 = .queueUnavailable503 ∧
    (create_export st payload job_id now).2.jobs job_id = none ∧
    (create_export st payload job_id now).2.event_buses job_id = false := by
  unfold create_export
  rw [if_neg hpl]
  simp [hsend]

/-- Witness for `C10_rollback_on_send_error` at a concrete closed queue. -/
theorem C10_rollback_on_send_error_witness :
    (create_export ⟨fun _ => none, fun _ => false, c10ClosedQueue⟩ demoRequest "j" 0).1 =
      .queueUnavailable503 ∧
    (create_export ⟨fun _ => none, fun _ => false, c10ClosedQueue⟩ demoRequest "j" 0).2.jobs
      "j" = none :=
  ⟨(C10_rollback_on_send_error ⟨fun _ => none, fun _ => false, c10ClosedQueue⟩
      demoRequest "j" 0 (by decide) rfl).1,
   (C10_rollback_on_send_error ⟨fun _ => none, fun _ => false, c10ClosedQueue⟩
      demoRequest "j" 0 (by decide) rfl).2.1⟩

/-- Dropping `k` elements from an arithmetic run of step 1. -/
theorem rangeDrop (s n k : Nat) (h : k ≤ n) :
    (List.range' s n).drop k = List.range' (s + k) (n - k) := by
  have happ := List.range'_append_1 s k (n - k)
  rw [Nat.sub_add_cancel h] at happ
  conv_lhs => rw [← happ]
  have hdl := List.drop_left (List.range' s k) (List.range' (s + k) (n - k))
  rwa [List.length_range'] at hdl

set_option maxRecDepth 8000 in
/-- C3: event-sequence discipline.  (a) a freshly created job record satisfies
the ring invariant with `next_seq = 1`; (b) whenever `append_job_event`
appends (same critical section that mutates the record), the event receives
`seq = next_seq`, `next_seq` increments by one (`next_seq` below the `u64`
saturation point), the ring stays within `MAX_JOB_EVENTS` by dropping oldest
entries, and the retained seqs stay consecutive ending at `next_seq − 1`;
(c) the retention reset re-establishes the invariant. -/
theorem C3_event_seq_discipline :
    (∀ jid now payload, seqRunInv (createJobRecord jid now payload)) ∧
    (∀ (job : JobRecord) et st p sp m (now : ℚ) (pr : JobRecord × ExportLogEvent),
      seqRunInv job → job.next_seq < U64_MAX →
      append_job_event job et st p sp m now = some pr →
      pr.2.seq = job.next_seq ∧
      pr.1.next_seq = job.next_seq + 1 ∧
      pr.1.events.length ≤ MAX_JOB_EVENTS ∧
      pr.1.events <:+ job.events ++ [pr.2] ∧
      seqRunInv pr.1) ∧
    (∀ (job : JobRecord) (now : ℚ), seqRunInv (expireJobRecord job now)) := by
  refine ⟨?_, ?_, ?_⟩
  · intro jid now payload
    exact ⟨by simp [createJobRecord, MAX_JOB_EVENTS], by simp [createJobRecord],
      by simp [createJobRecord]⟩
  · intro job et st p sp m now pr hinv hlt happ
    unfold append_job_event at happ
    by_cases hfil : ((job.status = .canceled ∨ job.status = .expired) ∧
        ¬(et = .jobCanceled ∨ et = .jobExpired))
    · rw [if_pos hfil] at happ; cases happ
    · rw [if_neg hfil] at happ
      obtain hpair := Option.some.inj happ
      obtain ⟨hlen, hlt2, hget⟩ := hinv
      have hev : pr.2 = appendedEvent job et st p sp m now := (congrArg Prod.snd hpair).symm
      have hjb : pr.1 = appendedJob job et st p sp m now := (congrArg Prod.fst hpair).symm
      have hseq : pr.2.seq = job.next_seq := by rw [hev]; rfl
      have hnext : pr.1.next_seq = job.next_seq + 1 := by
        rw [hjb]
        show min (job.next_seq + 1) U64_MAX = job.next_seq + 1
        exact min_eq_left (Nat.succ_le_of_lt hlt)
      have hevents : pr.1.events =
          (job.events ++ [appendedEvent job et st p sp m now]).drop
            ((job.events ++ [appendedEvent job et st p sp m now]).length -
              MAX_JOB_EVENTS) := by
        rw [hjb]; simp only [appendedJob]
      have hevseq : (appendedEvent job et st p sp m now).seq = job.next_seq := rfl
      set ev := appendedEvent job et st p sp m now with hevdef
      set l0 := job.events ++ [ev] with hl0
      have hl0len : l0.length = job.events.length + 1 := by
        rw [hl0]; simp
      have hlen2 : pr.1.events.length = min (job.events.length + 1) MAX_JOB_EVENTS := by
        rw [hevents, List.length_drop, hl0len]; omega
      have hl0map : l0.map ExportLogEvent.seq =
          List.range' (job.next_seq - job.events.length) (job.events.length + 1) := by
        rw [hl0, List.map_append, hget, List.map_singleton, List.range'_concat]
        congr 1
        rw [hevseq]
        congr 1
        omega
      refine ⟨hseq, hnext, ?_, ?_, ?_, ?_, ?_⟩
      · rw [hlen2]; omega
      · rw [hevents, hev, ← hl0]
        exact List.drop_suffix _ _
      · rw [hlen2]; omega
      · rw [hlen2, hnext]; omega
      · rw [hlen2, hnext, hevents, List.map_drop, hl0map, hl0len,
          rangeDrop _ _ _ (by omega)]
        have harg1 : job.next_seq - job.events.length +
            (job.events.length + 1 - MAX_JOB_EVENTS) =
            job.next_seq + 1 - min (job.events.length + 1) MAX_JOB_EVENTS := by omega
        have harg2 : job.events.length + 1 - (job.events.length + 1 - MAX_JOB_EVENTS) =
            min (job.events.length + 1) MAX_JOB_EVENTS := by omega
        rw [harg1, harg2]
  · intro job now
    exact ⟨by simp [expireJobRecord, MAX_JOB_EVENTS], by simp [expireJobRecord],
      by simp [expireJobRecord]⟩

/-- Witness for `C3_event_seq_discipline`: the first append on a fresh job
issues `seq = 1` and bumps `next_seq` to 2. -/
theorem C3_event_seq_discipline_witness :
    ∃ pr, append_job_event (createJobRecord "j" 0 demoRequest) .stageProgress .queued 20
      (some 0) "m" 1 = some pr ∧ pr.2.seq = 1 ∧ pr.1.next_seq = 2 := by
  obtain ⟨pr, hpr⟩ : ∃ pr, append_job_event (createJobRecord "j" 0 demoRequest) .stageProgress
      .queued 20 (some 0) "m" 1 = some pr := ⟨_, rfl⟩
  have hinv := C3_event_seq_discipline.1 "j" 0 demoRequest
  have h := C3_event_seq_discipline.2.1 (createJobRecord "j" 0 demoRequest) .stageProgress
    .queued 20 (some 0) "m" 1 pr hinv (by norm_num [createJobRecord, U64_MAX]) hpr
  exact ⟨pr, hpr, h.1, h.2.1⟩

/-- `append_job_event` never changes a job's status. -/
theorem appendOrKeep_status (job : JobRecord) (et : ExportEventType) (st : ExportStage)
    (p : ℚ) (sp : Option ℚ) (m : String) (now : ℚ) :
    (appendOrKeep job et st p sp m now).status = job.status := by
  unfold appendOrKeep append_job_event
  by_cases hfil : ((job.status = .canceled ∨ job.status = .expired) ∧
      ¬(et = .jobCanceled ∨ et = .jobExpired))
  · rw [if_pos hfil]
  · rw [if_neg hfil]
    simp [appendedJob]

/-- `append_job_event` never changes a job's request payload. -/
theorem appendOrKeep_request (job : JobRecord) (et : ExportEventType) (st : ExportStage)
    (p : ℚ) (sp : Option ℚ) (m : String) (now : ℚ) :
    (appendOrKeep job et st p sp m now).request = job.request := by
  unfold appendOrKeep append_job_event
  by_cases hfil : ((job.status = .canceled ∨ job.status = .expired) ∧
      ¬(et = .jobCanceled ∨ et = .jobExpired))
  · rw [if_pos hfil]
  · rw [if_neg hfil]
    simp [appendedJob]

/-- The append filter: non-terminal events on canceled/expired jobs are
silently dropped. -/
theorem appendOrKeep_of_terminalFiltered (job : JobRecord) (et : ExportEventType)
    (st : ExportStage) (p : ℚ) (sp : Option ℚ) (m : String) (now : ℚ)
    (hs : job.status = .canceled ∨ job.status = .expired)
    (he : ¬(et = .jobCanceled ∨ et = .jobExpired)) :
    appendOrKeep job et st p sp m now = job := by
  unfold appendOrKeep append_job_event
  rw [if_pos ⟨hs, he⟩]

/-- When the filter lets the event through, the append installs the clamped
progress and the event's stage. -/
theorem appendOrKeep_applied (job : JobRecord) (et : ExportEventType)
    (st : ExportStage) (p : ℚ) (sp : Option ℚ) (m : String) (now : ℚ)
    (h : ¬((job.status = .canceled ∨ job.status = .expired) ∧
        ¬(et = .jobCanceled ∨ et = .jobExpired))) :
    (appendOrKeep job et st p sp m now).progress = clampQ p 0 100 ∧
    (appendOrKeep job et st p sp m now).current_stage = st := by
  unfold appendOrKeep append_job_event
  rw [if_neg h]
  exact ⟨by simp [appendedJob], by simp [appendedJob]⟩

theorem clampQ_100 : clampQ 100 0 100 = 100 := by norm_num [clampQ]

/-- An append that carries progress 100 and a terminal stage preserves the
terminal field constraints. -/
theorem appendOrKeep_terminal_value (job : JobRecord) (et : ExportEventType)
    (st : ExportStage) (sp : Option ℚ) (m : String) (now : ℚ)
    (hst : terminalStageSet st) (hreq : job.request = none)
    (hfields : job.progress = 100 ∧ terminalStageSet job.current_stage) :
    TerminalFieldsOk (appendOrKeep job et st 100 sp m now) := by
  by_cases hfil : ((job.status = .canceled ∨ job.status = .expired) ∧
      ¬(et = .jobCanceled ∨ et = .jobExpired))
  · rw [appendOrKeep_of_terminalFiltered job et st 100 sp m now hfil.1 hfil.2]
    exact ⟨hreq, hfields.1, hfields.2⟩
  · obtain ⟨hp, hs⟩ := appendOrKeep_applied job et st 100 sp m now hfil
    refine ⟨?_, ?_, ?_⟩
    · rw [appendOrKeep_request]; exact hreq
    · rw [hp, clampQ_100]
    · rw [hs]; exact hst

theorem not_terminal_queued : ¬ terminalStatus .queued := by simp [terminalStatus]

theorem not_terminal_running : ¬ terminalStatus .running := by simp [terminalStatus]

/-- The submission-time system state satisfies the inductive invariant. -/
theorem initJobSysInv (jid : String) (payload : ExportRequest) (now : ℚ) :
    JobSysInv (initJobSys jid payload now) := by
  refine ⟨fun _ => Or.inl rfl, ?_, ?_, ?_, ?_, ?_⟩
  · rintro (h | h) <;> exact nomatch h
  · intro h; exact nomatch h
  · rintro (h | h) <;> exact nomatch h
  · intro hterm
    exact absurd hterm not_terminal_queued
  · intro hterm
    exact absurd hterm not_terminal_queued

/-- Every step of the per-job transition system preserves the invariant. -/
theorem jobStepInv {s t : JobSys} (hstep : JobStep s t) (hinv : JobSysInv s) :
    JobSysInv t := by
  obtain ⟨h1, h2, h3, h4, h5, h6⟩ := hinv
  cases hstep with
  | createAppend now hpend =>
    have hst := appendOrKeep_status s.job .stageProgress .queued 0 (some 0)
      "Queued for export" now
    have hrq := appendOrKeep_request s.job .stageProgress .queued 0 (some 0)
      "Queued for export" now
    refine ⟨?_, ?_, ?_, ?_, ?_, ?_⟩
    · intro hph
      exact (h1 hph).elim (fun h => Or.inl (hst.trans h)) (fun h => Or.inr (hst.trans h))
    · intro hph
      exact (h2 hph).elim (fun h => Or.inl (hst.trans h)) (fun h => Or.inr (hst.trans h))
    · intro hph
      exact hrq.trans (h3 hph)
    · intro hph
      refine ⟨?_, hrq.trans (h4 hph).2⟩
      have := (h4 hph).1
      show terminalStatus (appendOrKeep s.job .stageProgress .queued 0 (some 0)
        "Queued for export" now).status
      rw [hst]; exact this
    · intro hterm
      have hterm2 : terminalStatus (appendOrKeep s.job .stageProgress .queued 0 (some 0)
          "Queued for export" now).status := hterm
      rw [hst] at hterm2
      exact hrq.trans (h5 hterm2)
    · intro hterm hlate
      have hterm2 : terminalStatus (appendOrKeep s.job .stageProgress .queued 0 (some 0)
          "Queued for export" now).status := hterm
      rw [hst] at hterm2
      have hlate2 : (s.lateCreateAppend ||
          decide (s.job.status = .completed ∨ s.job.status = .failed)) = false := hlate
      rw [Bool.or_eq_false_iff] at hlate2
      have hnotcf : ¬(s.job.status = .completed ∨ s.job.status = .failed) :=
        of_decide_eq_false hlate2.2
      have hce : s.job.status = .canceled ∨ s.job.status = .expired := by
        rcases hterm2 with h | h | h | h
        · exact absurd (Or.inl h) hnotcf
        · exact absurd (Or.inr h) hnotcf
        · exact Or.inl h
        · exact Or.inr h
      have hkeep := appendOrKeep_of_terminalFiltered s.job .stageProgress .queued 0 (some 0)
        "Queued for export" now hce (by rintro (h | h) <;> cases h)
      have hfield := h6 hterm2 hlate2.1
      show (appendOrKeep s.job .stageProgress .queued 0 (some 0)
          "Queued for export" now).progress = 100 ∧
        terminalStageSet (appendOrKeep s.job .stageProgress .queued 0 (some 0)
          "Queued for export" now).current_stage
      rw [hkeep]
      exact hfield
  | cancel now hqr =>
    refine ⟨fun _ => Or.inr rfl, fun _ => Or.inr rfl, fun _ => rfl, ?_, fun _ => rfl, ?_⟩
    · intro _
      exact ⟨Or.inr (Or.inr (Or.inl rfl)), rfl⟩
    · intro _ _
      exact ⟨rfl, Or.inr (Or.inr (Or.inl rfl))⟩
  | cancelAppend now hpend =>
    have hst := appendOrKeep_status s.job .jobCanceled .canceled 100 (some 100)
      "Export canceled" now
    have hrq := appendOrKeep_request s.job .jobCanceled .canceled 100 (some 100)
      "Export canceled" now
    refine ⟨?_, ?_, ?_, ?_, ?_, ?_⟩
    · intro hph
      exact (h1 hph).elim (fun h => Or.inl (hst.trans h)) (fun h => Or.inr (hst.trans h))
    · intro hph
      exact (h2 hph).elim (fun h => Or.inl (hst.trans h)) (fun h => Or.inr (hst.trans h))
    · intro hph
      exact hrq.trans (h3 hph)
    · intro hph
      refine ⟨?_, hrq.trans (h4 hph).2⟩
      show terminalStatus (appendOrKeep s.job .jobCanceled .canceled 100 (some 100)
        "Export canceled" now).status
      rw [hst]; exact (h4 hph).1
    · intro hterm
      have hterm2 : terminalStatus (appendOrKeep s.job .jobCanceled .canceled 100 (some 100)
          "Export canceled" now).status := hterm
      rw [hst] at hterm2
      exact hrq.trans (h5 hterm2)
    · intro hterm hlate
      have hterm2 : terminalStatus (appendOrKeep s.job .jobCanceled .canceled 100 (some 100)
          "Export canceled" now).status := hterm
      rw [hst] at hterm2
      have hv := appendOrKeep_terminal_value s.job .jobCanceled .canceled (some 100)
        "Export canceled" now (Or.inr (Or.inr (Or.inl rfl))) (h5 hterm2)
        ⟨(h6 hterm2 hlate).1, (h6 hterm2 hlate).2⟩
      exact ⟨hv.2.1, hv.2.2⟩
  | expire a now hcomp hart hexp =>
    refine ⟨?_, ?_, ?_, ?_, fun _ => h5 (Or.inl hcomp), ?_⟩
    · intro hph
      rcases h1 hph with h | h <;> rw [hcomp] at h <;> cases h
    · intro hph
      rcases h2 hph with h | h <;> rw [hcomp] at h <;> cases h
    · intro hph
      exact h5 (Or.inl hcomp)
    · intro _
      exact ⟨Or.inr (Or.inr (Or.inr rfl)), h5 (Or.inl hcomp)⟩
    · intro _ _
      exact ⟨rfl, Or.inr (Or.inr (Or.inr rfl))⟩
  | claimSkip hph hcanc =>
    refine ⟨?_, ?_, ?_, ?_, h5, h6⟩
    · intro h; exact nomatch h
    · rintro (h | h) <;> exact nomatch h
    · intro h; exact nomatch h
    · rintro (h | h) <;> exact nomatch h
  | claimLegacy now hph hnc =>
    refine ⟨?_, fun _ => Or.inl rfl, ?_, ?_, ?_, ?_⟩
    · intro h; exact nomatch h
    · intro h; exact nomatch h
    · rintro (h | h) <;> exact nomatch h
    · intro hterm
      exact absurd hterm not_terminal_running
    · intro hterm
      exact absurd hterm not_terminal_running
  | claimRunpod now hph hnc =>
    refine ⟨?_, fun _ => Or.inl rfl, ?_, ?_, ?_, ?_⟩
    · intro h; exact nomatch h
    · intro h; exact nomatch h
    · rintro (h | h) <;> exact nomatch h
    · intro hterm
      exact absurd hterm not_terminal_running
    · intro hterm
      exact absurd hterm not_terminal_running
  | workerAppend et stage p sp msg now hph het =>
    have hst := appendOrKeep_status s.job et stage p sp msg now
    have hrq := appendOrKeep_request s.job et stage p sp msg now
    refine ⟨?_, ?_, ?_, ?_, ?_, ?_⟩
    · intro h
      rcases hph with h2p | h2p <;> rw [h2p] at h <;> cases h
    · intro _
      exact (h2 hph).elim (fun h => Or.inl (hst.trans h)) (fun h => Or.inr (hst.trans h))
    · intro hph2
      exact hrq.trans (h3 hph2)
    · rintro (h | h) <;> rcases hph with h2p | h2p <;> rw [h2p] at h <;> cases h
    · intro hterm
      have hterm2 : terminalStatus (appendOrKeep s.job et stage p sp msg now).status := hterm
      rw [hst] at hterm2
      exact hrq.trans (h5 hterm2)
    · intro hterm hlate
      have hterm2 : terminalStatus (appendOrKeep s.job et stage p sp msg now).status := hterm
      rw [hst] at hterm2
      have hce : s.job.status = .canceled ∨ s.job.status = .expired := by
        rcases h2 hph with h | h
        · rcases hterm2 with ht | ht | ht | ht <;> rw [h] at ht <;> cases ht
        · exact Or.inl h
      have hkeep := appendOrKeep_of_terminalFiltered s.job et stage p sp msg now hce
        (by rcases het with h | h | h <;> rw [h] <;> rintro (hx | hx) <;> cases hx)
      show (appendOrKeep s.job et stage p sp msg now).progress = 100 ∧
        terminalStageSet (appendOrKeep s.job et stage p sp msg now).current_stage
      rw [hkeep]
      exact h6 hterm2 hlate
  | workerCancelReturn hph hcanc =>
    refine ⟨?_, ?_, ?_, ?_, h5, h6⟩
    · intro h; exact nomatch h
    · rintro (h | h) <;> exact nomatch h
    · intro h; exact nomatch h
    · rintro (h | h) <;> exact nomatch h
  | workerFail msg now hph =>
    refine ⟨?_, ?_, ?_, ?_, fun _ => rfl, ?_⟩
    · intro h; exact nomatch h
    · rintro (h | h) <;> exact nomatch h
    · intro h; exact nomatch h
    · intro _
      exact ⟨Or.inr (Or.inl rfl), rfl⟩
    · intro _ _
      exact ⟨rfl, Or.inr (Or.inl rfl)⟩
  | stageRunpod now hph =>
    refine ⟨?_, ?_, fun _ => rfl, ?_, fun _ => rfl, ?_⟩
    · intro h; exact nomatch h
    · intro _
      exact h2 (Or.inl hph)
    · rintro (h | h) <;> exact nomatch h
    · intro hterm hlate
      exact h6 hterm hlate
  | finalizeLegacy artifact path now hph hnc =>
    refine ⟨?_, ?_, ?_, ?_, fun _ => rfl, ?_⟩
    · intro h; exact nomatch h
    · rintro (h | h) <;> exact nomatch h
    · intro h; exact nomatch h
    · intro _
      exact ⟨Or.inl rfl, rfl⟩
    · intro _ _
      exact ⟨rfl, Or.inl rfl⟩
  | finalizeRunpod artifact path now hph =>
    refine ⟨?_, ?_, ?_, ?_, ?_, ?_⟩
    · intro h; exact nomatch h
    · rintro (h | h) <;> exact nomatch h
    · intro h; exact nomatch h
    · intro _
      exact ⟨Or.inl rfl, h3 hph⟩
    · intro _
      exact h3 hph
    · intro _ _
      exact ⟨rfl, Or.inl rfl⟩
  | emitCompletedStep now hph =>
    have hst := appendOrKeep_status s.job .jobCompleted .downloadReady 100 (some 100)
      "Export completed" now
    have hrq := appendOrKeep_request s.job .jobCompleted .downloadReady 100 (some 100)
      "Export completed" now
    refine ⟨?_, ?_, ?_, ?_, ?_, ?_⟩
    · intro h; exact nomatch h
    · rintro (h | h) <;> exact nomatch h
    · intro h; exact nomatch h
    · rintro (h | h) <;> exact nomatch h
    · intro hterm
      have hterm2 : terminalStatus (appendOrKeep s.job .jobCompleted .downloadReady 100
          (some 100) "Export completed" now).status := hterm
      rw [hst] at hterm2
      exact hrq.trans (h5 hterm2)
    · intro hterm hlate
      have hterm2 : terminalStatus (appendOrKeep s.job .jobCompleted .downloadReady 100
          (some 100) "Export completed" now).status := hterm
      rw [hst] at hterm2
      by_cases hfil : ((s.job.status = .canceled ∨ s.job.status = .expired) ∧
          ¬(ExportEventType.jobCompleted = .jobCanceled ∨
            ExportEventType.jobCompleted = .jobExpired))
      · have hkeep := appendOrKeep_of_terminalFiltered s.job .jobCompleted .downloadReady 100
          (some 100) "Export completed" now hfil.1 hfil.2
        show (appendOrKeep s.job .jobCompleted .downloadReady 100 (some 100)
            "Export completed" now).progress = 100 ∧
          terminalStageSet (appendOrKeep s.job .jobCompleted .downloadReady 100 (some 100)
            "Export completed" now).current_stage
        rw [hkeep]
        exact h6 hterm2 hlate
      · obtain ⟨hp, hs⟩ := appendOrKeep_applied s.job .jobCompleted .downloadReady 100
          (some 100) "Export completed" now hfil
        exact ⟨hp.trans clampQ_100, by
          show terminalStageSet (appendOrKeep s.job .jobCompleted .downloadReady 100
            (some 100) "Export completed" now).current_stage
          rw [hs]
          exact Or.inl rfl⟩
  | emitFailedStep now hph =>
    have hst := appendOrKeep_status s.job .jobFailed .failed 100 (some 100)
      "Export failed" now
    have hrq := appendOrKeep_request s.job .jobFailed .failed 100 (some 100)
      "Export failed" now
    refine ⟨?_, ?_, ?_, ?_, ?_, ?_⟩
    · intro h; exact nomatch h
    · rintro (h | h) <;> exact nomatch h
    · intro h; exact nomatch h
    · rintro (h | h) <;> exact nomatch h
    · intro hterm
      have hterm2 : terminalStatus (appendOrKeep s.job .jobFailed .failed 100
          (some 100) "Export failed" now).status := hterm
      rw [hst] at hterm2
      exact hrq.trans (h5 hterm2)
    · intro hterm hlate
      have hterm2 : terminalStatus (appendOrKeep s.job .jobFailed .failed 100
          (some 100) "Export failed" now).status := hterm
      rw [hst] at hterm2
      by_cases hfil : ((s.job.status = .canceled ∨ s.job.status = .expired) ∧
          ¬(ExportEventType.jobFailed = .jobCanceled ∨
            ExportEventType.jobFailed = .jobExpired))
      · have hkeep := appendOrKeep_of_terminalFiltered s.job .jobFailed .failed 100
          (some 100) "Export failed" now hfil.1 hfil.2
        show (appendOrKeep s.job .jobFailed .failed 100 (some 100)
            "Export failed" now).progress = 100 ∧
          terminalStageSet (appendOrKeep s.job .jobFailed .failed 100 (some 100)
            "Export failed" now).current_stage
        rw [hkeep]
        exact h6 hterm2 hlate
      · obtain ⟨hp, hs⟩ := appendOrKeep_applied s.job .jobFailed .failed 100
          (some 100) "Export failed" now hfil
        exact ⟨hp.trans clampQ_100, by
          show terminalStageSet (appendOrKeep s.job .jobFailed .failed 100
            (some 100) "Export failed" now).current_stage
          rw [hs]
          exact Or.inr (Or.inl rfl)⟩

/-- No step takes a job from a terminal status to a non-terminal one. -/
theorem jobStepTerminal {s t : JobSys} (hstep : JobStep s t) (hinv : JobSysInv s)
    (hterm : terminalStatus s.job.status) : terminalStatus t.job.status := by
  obtain ⟨h1, h2, h3, h4, h5, h6⟩ := hinv
  cases hstep with
  | createAppend now hpend =>
    have hst := appendOrKeep_status s.job .stageProgress .queued 0 (some 0)
      "Queued for export" now
    show terminalStatus (appendOrKeep s.job .stageProgress .queued 0 (some 0)
      "Queued for export" now).status
    rw [hst]; exact hterm
  | cancel now hqr =>
    rcases hqr with h | h <;> rw [h] at hterm
    · exact absurd hterm not_terminal_queued
    · exact absurd hterm not_terminal_running
  | cancelAppend now hpend =>
    have hst := appendOrKeep_status s.job .jobCanceled .canceled 100 (some 100)
      "Export canceled" now
    show terminalStatus (appendOrKeep s.job .jobCanceled .canceled 100 (some 100)
      "Export canceled" now).status
    rw [hst]; exact hterm
  | expire a now hcomp hart hexp =>
    exact Or.inr (Or.inr (Or.inr rfl))
  | claimSkip hph hcanc =>
    exact hterm
  | claimLegacy now hph hnc =>
    rcases h1 hph with h | h
    · rw [h] at hterm; exact absurd hterm not_terminal_queued
    · exact absurd h hnc
  | claimRunpod now hph hnc =>
    rcases h1 hph with h | h
    · rw [h] at hterm; exact absurd hterm not_terminal_queued
    · exact absurd h hnc
  | workerAppend et stage p sp msg now hph het =>
    have hst := appendOrKeep_status s.job et stage p sp msg now
    show terminalStatus (appendOrKeep s.job et stage p sp msg now).status
    rw [hst]; exact hterm
  | workerCancelReturn hph hcanc =>
    exact hterm
  | workerFail msg now hph =>
    exact Or.inr (Or.inl rfl)
  | stageRunpod now hph =>
    exact hterm
  | finalizeLegacy artifact path now hph hnc =>
    exact Or.inl rfl
  | finalizeRunpod artifact path now hph =>
    exact Or.inl rfl
  | emitCompletedStep now hph =>
    have hst := appendOrKeep_status s.job .jobCompleted .downloadReady 100 (some 100)
      "Export completed" now
    show terminalStatus (appendOrKeep s.job .jobCompleted .downloadReady 100 (some 100)
      "Export completed" now).status
    rw [hst]; exact hterm
  | emitFailedStep now hph =>
    have hst := appendOrKeep_status s.job .jobFailed .failed 100 (some 100)
      "Export failed" now
    show terminalStatus (appendOrKeep s.job .jobFailed .failed 100 (some 100)
      "Export failed" now).status
    rw [hst]; exact hterm

/-- The inductive invariant holds in every reachable state. -/
theorem jobReachableInv (jid : String) (payload : ExportRequest) (now0 : ℚ)
    (s : JobSys) (hreach : JobReachable (initJobSys jid payload now0) s) :
    JobSysInv s := by
  induction hreach with
  | refl => exact initJobSysInv jid payload now0
  | tail hr hstep ih => exact jobStepInv hstep ih

/-- C4 counterexample: the trace submit → worker claims → worker completes →
delayed submission append reaches a state whose job is terminal (`completed`)
yet has `progress = 0` and `current_stage = queued`: the late append passes
the filter (which only guards canceled/expired) and overwrites the terminal
fields, refuting the claim as stated. -/
theorem C4_late_append_counterexample :
    JobReachable (initJobSys "j" demoRequest 0) c4S3 ∧
    terminalStatus c4S3.job.status ∧
    c4S3.job.progress = 0 ∧ c4S3.job.progress ≠ 100 ∧
    c4S3.job.current_stage = ExportStage.queued := by
  refine ⟨?_, Or.inl (by decide), by decide, by decide, by decide⟩
  show Relation.ReflTransGen JobStep c4S0 c4S3
  have st1 : JobStep c4S0 c4S1 := JobStep.claimLegacy c4S0 1 rfl (fun h => nomatch h)
  have st2 : JobStep c4S1 c4S2 :=
    JobStep.finalizeLegacy c4S1 c4Artifact "p" 2 rfl (fun h => nomatch h)
  have st3 : JobStep c4S2 c4S3 := JobStep.createAppend c4S2 3 rfl
  exact Relation.ReflTransGen.tail
    (Relation.ReflTransGen.tail (Relation.ReflTransGen.single st1) st2) st3

/-- C4 (amended): in every reachable state of the per-job lifecycle, a
terminal job's request payload is null; moreover — provided the submission
handler's trailing "Queued for export" event append was not delivered after
the job already reached `completed`/`failed` (the `lateCreateAppend` ghost
flag) — a terminal job has progress 100 and a stage among
download-ready/failed/canceled/expired; and no step moves a job from a
terminal status to a non-terminal one. -/
theorem C4_terminal_absorbing (jid : String) (payload : ExportRequest) (now0 : ℚ)
    (s : JobSys) (hreach : JobReachable (initJobSys jid payload now0) s) :
    (terminalStatus s.job.status → s.job.request = none) ∧
    (terminalStatus s.job.status → s.lateCreateAppend = false →
      s.job.progress = 100 ∧ terminalStageSet s.job.current_stage) ∧
    (∀ t, JobStep s t → terminalStatus s.job.status → terminalStatus t.job.status) := by
  have hinv := jobReachableInv jid payload now0 s hreach
  exact ⟨hinv.2.2.2.2.1, hinv.2.2.2.2.2,
    fun t ht hterm => jobStepTerminal ht hinv hterm⟩

/-- Witness for `C4_terminal_absorbing`: a job canceled right after
submission is terminal with the required fields. -/
theorem C4_terminal_absorbing_witness :
    (cancelJobRecord (createJobRecord "j" 0 demoRequest) 1).request = none ∧
    (cancelJobRecord (createJobRecord "j" 0 demoRequest) 1).progress = 100 := by
  have h := C4_terminal_absorbing "j" demoRequest 0
    { initJobSys "j" demoRequest 0 with
      job := cancelJobRecord (initJobSys "j" demoRequest 0).job 1,
      cancelAppendPending := true }
    (Relation.ReflTransGen.single
      (JobStep.cancel (initJobSys "j" demoRequest 0) 1 (Or.inl rfl)))
  exact ⟨h.1 (Or.inr (Or.inr (Or.inl rfl))),
    (h.2.1 (Or.inr (Or.inr (Or.inl rfl))) rfl).1⟩

/-- `stepKeyLe` is transitive. -/
theorem stepKeyLe_trans (a b c : ProcessStepRecord)
    (hab : stepKeyLe a b) (hbc : stepKeyLe b c) : stepKeyLe a c := by
  rw [stepKeyLe, decide_eq_true_eq] at hab hbc ⊢
  rcases hab with h1 | ⟨h1, h2⟩ <;> rcases hbc with h3 | ⟨h3, h4⟩
  · exact Or.inl (lt_trans h1 h3)
  · exact Or.inl (lt_of_lt_of_eq h1 h3)
  · exact Or.inl (lt_of_eq_of_lt h1 h3)
  · refine Or.inr ⟨h1.trans h3, ?_⟩
    rcases h2 with g1 | ⟨g1, g2⟩ <;> rcases h4 with g3 | ⟨g3, g4⟩
    · exact Or.inl (Nat.lt_trans g1 g3)
    · exact Or.inl (lt_of_lt_of_eq g1 g3)
    · exact Or.inl (lt_of_eq_of_lt g1 g3)
    · exact Or.inr ⟨g1.trans g3, le_trans g2 g4⟩

/-- `stepKeyLe` is total. -/
theorem stepKeyLe_total (a b : ProcessStepRecord) :
    stepKeyLe a b || stepKeyLe b a := by
  rw [Bool.or_eq_true, stepKeyLe, stepKeyLe, decide_eq_true_eq, decide_eq_true_eq]
  rcases lt_trichotomy a.process_id b.process_id with h | h | h
  · exact Or.inl (Or.inl h)
  · rcases Nat.lt_trichotomy a.step b.step with g | g | g
    · exact Or.inl (Or.inr ⟨h, Or.inl g⟩)
    · rcases le_total a.function_id b.function_id with f | f
      · exact Or.inl (Or.inr ⟨h, Or.inr ⟨g, f⟩⟩)
      · exact Or.inr (Or.inr ⟨h.symm, Or.inr ⟨g.symm, f⟩⟩)
    · exact Or.inr (Or.inr ⟨h.symm, Or.inl g⟩)
  · exact Or.inr (Or.inl h)

/-- The loop body of `derive_process_steps` agrees with the amended claim's
case analysis. -/
theorem processStepOf_eq_spec (edge : EdgeRecord) :
    processStepOf edge = specProcessStepOf edge := by
  unfold processStepOf specProcessStepOf specProcessId specFunctionId
  by_cases hrel : edge.relation_type = "STEP_IN_PROCESS"
  · rw [if_neg (by simp [hrel]), if_pos hrel]
    by_cases ht : strContainsSub edge.target_id "proc_"
    · simp [ht]
    · by_cases hs : strContainsSub edge.source_id "proc_"
      · simp [ht, hs]
      · cases hf : findSub edge.uri.data "_proc_".data <;> simp [ht, hs, hf]
  · rw [if_pos (by simp [hrel]), if_neg hrel]

/-- C8 counterexample: for a STEP_IN_PROCESS edge whose source and target
both contain `"proc_"` (source `proc_a`, target `proc_b`, URI `x_proc_c`),
the code takes the *target* as process-id (not the URI-derived `proc_c` the
claim prescribes) and also the target — not "the other endpoint" `proc_a` —
as function-id. -/
theorem C8_both_proc_counterexample :
    derive_process_steps [c8Edge] =
      [⟨"proc_b", 1, "proc_b", "x_proc_c"⟩] ∧
    (findSub c8Edge.uri.data "_proc_".data).map
      (fun pos => String.mk (c8Edge.uri.data.drop (pos + 1))) = some "proc_c" ∧
    ("proc_b" : String) ≠ "proc_c" ∧ ("proc_b" : String) ≠ "proc_a" := by
  refine ⟨?_, by decide, by decide, by decide⟩
  have h : [c8Edge].filterMap processStepOf =
      [⟨"proc_b", 1, "proc_b", "x_proc_c"⟩] := by decide
  rw [derive_process_steps, h, List.mergeSort_singleton]

/-- C8 (amended): `derive_process_steps` yields exactly one record per
STEP_IN_PROCESS edge with a resolvable process-id — the process-id being the
target endpoint if it contains "proc_", else the source endpoint if it does,
else the URI suffix after the first "_proc_" (the edge is skipped otherwise);
the function-id being the target when the source contains "proc_", else the
source — and the result is sorted by (process-id, step, function-id). -/
theorem C8_process_step_derivation (edges : List EdgeRecord) :
    (derive_process_steps edges).Perm (edges.filterMap specProcessStepOf) ∧
    (derive_process_steps edges).Pairwise (fun a b =>
      a.process_id < b.process_id ∨ (a.process_id = b.process_id ∧
        (a.step < b.step ∨ (a.step = b.step ∧ a.function_id ≤ b.function_id)))) := by
  constructor
  · have hperm := List.mergeSort_perm (edges.filterMap processStepOf) stepKeyLe
    rw [derive_process_steps]
    have hfm : edges.filterMap processStepOf = edges.filterMap specProcessStepOf :=
      List.filterMap_congr (fun e _ => processStepOf_eq_spec e)
    rw [hfm] at hperm
    rw [hfm]
    exact hperm
  · have hsorted := @List.sorted_mergeSort ProcessStepRecord stepKeyLe stepKeyLe_trans
      stepKeyLe_total (edges.filterMap processStepOf)
    rw [derive_process_steps]
    exact hsorted.imp (fun h => by rwa [stepKeyLe, decide_eq_true_eq] at h)

/-- The `as i64` / `as usize` pair is the identity on genuine `usize` values. -/
theorem usize_roundtrip (n : Nat) (h : n < 2 ^ 64) : i64ToUsize (usizeToI64 n) = n := by
  unfold usizeToI64 i64ToUsize
  by_cases h63 : n < 2 ^ 63
  · rw [if_pos h63]
    omega
  · rw [if_neg h63]
    omega

theorem optUsizeRoundtrip (o : Option Nat) (h : ∀ v ∈ o, v < 2 ^ 64) :
    (o.map usizeToI64).map i64ToUsize = o := by
  cases o with
  | none => rfl
  | some v => simp [usize_roundtrip v (h v rfl)]

theorem rowToNode_nodeToRow (n : NodeRecord)
    (h1 : ∀ v ∈ n.start_line, v < 2 ^ 64) (h2 : ∀ v ∈ n.end_line, v < 2 ^ 64) :
    rowToNode (nodeToRow n) = n := by
  have hsl := optUsizeRoundtrip n.start_line h1
  have hel := optUsizeRoundtrip n.end_line h2
  cases n with
  | mk id label name fp sl el lang uri title st md =>
    simp only [rowToNode, nodeToRow] at *
    simp [hsl, hel]

theorem rowToEdge_edgeToRow (e : EdgeRecord) (h : ∀ v ∈ e.step, v < 2 ^ 64) :
    rowToEdge (edgeToRow e) = e := by
  have hst := optUsizeRoundtrip e.step h
  cases e with
  | mk id rt sid tid conf reason step uri st md =>
    simp only [rowToEdge, edgeToRow] at *
    simp [hst]

theorem rowToStep_stepToRow (st : ProcessStepRecord) (h : st.step < 2 ^ 64) :
    rowToStep (stepToRow st) = st := by
  cases st with
  | mk pid step fid uri =>
    simp only [rowToStep, stepToRow] at *
    simp [usize_roundtrip step h]

theorem insertPK_ok {ρ : Type} (keyOf : ρ → String) (rows : List ρ) (r : ρ)
    (out : List ρ) (h : insertPK keyOf rows r = .ok out) : out = rows ++ [r] := by
  unfold insertPK at h
  split at h
  · cases h
  · exact (Except.ok.inj h).symm

/-- The node loop appends exactly the node rows and leaves the edge, step and
hotspot tables untouched. -/
theorem persistNodesFold (nodes : List NodeRecord) (db0 db' : Sidecar)
    (h : nodes.foldlM persistNodeStep db0 = .ok db') :
    db'.nodes_by_id = db0.nodes_by_id ++ nodes.map nodeToRow ∧
    db'.edges = db0.edges ∧
    db'.process_steps_by_process_id = db0.process_steps_by_process_id ∧
    db'.hotspots = db0.hotspots := by
  induction nodes generalizing db0 with
  | nil =>
    have h0 : (Except.ok db0 : Except String Sidecar) = .ok db' := h
    obtain rfl := Except.ok.inj h0
    exact ⟨by simp, rfl, rfl, rfl⟩
  | cons n ns ih =>
    have h2 : (persistNodeStep db0 n >>=
        fun db1 => ns.foldlM persistNodeStep db1) = .ok db' := h
    cases hstep : persistNodeStep db0 n with
    | error e =>
      rw [hstep] at h2
      exact nomatch h2
    | ok db1 =>
      rw [hstep] at h2
      have h3 : ns.foldlM persistNodeStep db1 = .ok db' := h2
      obtain ⟨i1, i2, i3, i4⟩ := ih db1 h3
      have hstep2 : (insertPK NodeRow.node_id db0.nodes_by_id (nodeToRow n) >>=
          fun nbi => (pure { db0 with
            nodes_by_id := nbi,
            nodes_by_label := db0.nodes_by_label ++ [(n.label, n.id)],
            nodes_by_file := db0.nodes_by_file ++ [(n.file_path, n.id)] } :
            Except String Sidecar)) = .ok db1 := hstep
      cases hins : insertPK NodeRow.node_id db0.nodes_by_id (nodeToRow n) with
      | error e =>
        rw [hins] at hstep2
        exact nomatch hstep2
      | ok nbi =>
        rw [hins] at hstep2
        have hdb1 := Except.ok.inj hstep2
        have hnbi := insertPK_ok _ _ _ _ hins
        refine ⟨?_, ?_, ?_, ?_⟩
        · rw [i1, ← hdb1]
          simp [hnbi]
        · rw [i2, ← hdb1]
        · rw [i3, ← hdb1]
        · rw [i4, ← hdb1]

/-- The edge loop appends exactly the edge rows and leaves the node, step and
hotspot tables untouched. -/
theorem persistEdgesFold (edges : List EdgeRecord) (db0 db' : Sidecar)
    (h : edges.foldlM persistEdgeStep db0 = .ok db') :
    db'.edges = db0.edges ++ edges.map edgeToRow ∧
    db'.nodes_by_id = db0.nodes_by_id ∧
    db'.process_steps_by_process_id = db0.process_steps_by_process_id ∧
    db'.hotspots = db0.hotspots := by
  induction edges generalizing db0 with
  | nil =>
    have h0 : (Except.ok db0 : Except String Sidecar) = .ok db' := h
    obtain rfl := Except.ok.inj h0
    exact ⟨by simp, rfl, rfl, rfl⟩
  | cons e es ih =>
    have h2 : (persistEdgeStep db0 e >>=
        fun db1 => es.foldlM persistEdgeStep db1) = .ok db' := h
    cases hstep : persistEdgeStep db0 e with
    | error msg =>
      rw [hstep] at h2
      exact nomatch h2
    | ok db1 =>
      rw [hstep] at h2
      have h3 : es.foldlM persistEdgeStep db1 = .ok db' := h2
      obtain ⟨i1, i2, i3, i4⟩ := ih db1 h3
      have hstep2 : (insertPK EdgeRow.edge_id db0.edges (edgeToRow e) >>=
          fun er => (pure { db0 with
            edges := er,
            edges_by_source_type := db0.edges_by_source_type ++
              [(e.source_id, e.relation_type, e.id, e.target_id)],
            edges_by_target_type := db0.edges_by_target_type ++
              [(e.target_id, e.relation_type, e.id, e.source_id)] } :
            Except String Sidecar)) = .ok db1 := hstep
      cases hins : insertPK EdgeRow.edge_id db0.edges (edgeToRow e) with
      | error msg =>
        rw [hins] at hstep2
        exact nomatch hstep2
      | ok er =>
        rw [hins] at hstep2
        have hdb1 := Except.ok.inj hstep2
        have her := insertPK_ok _ _ _ _ hins
        refine ⟨?_, ?_, ?_, ?_⟩
        · rw [i1, ← hdb1]
          simp [her]
        · rw [i2, ← hdb1]
        · rw [i3, ← hdb1]
        · rw [i4, ← hdb1]

/-- The hotspot loop leaves the node, edge and step tables untouched. -/
theorem persistHotspotsFold (hs : List HotspotRecord) (db0 db' : Sidecar)
    (h : hs.foldlM persistHotspotStep db0 = .ok db') :
    db'.nodes_by_id = db0.nodes_by_id ∧
    db'.edges = db0.edges ∧
    db'.process_steps_by_process_id = db0.process_steps_by_process_id := by
  induction hs generalizing db0 with
  | nil =>
    have h0 : (Except.ok db0 : Except String Sidecar) = .ok db' := h
    obtain rfl := Except.ok.inj h0
    exact ⟨rfl, rfl, rfl⟩
  | cons x xs ih =>
    have h2 : (persistHotspotStep db0 x >>=
        fun db1 => xs.foldlM persistHotspotStep db1) = .ok db' := h
    cases hstep : persistHotspotStep db0 x with
    | error msg =>
      rw [hstep] at h2
      exact nomatch h2
    | ok db1 =>
      rw [hstep] at h2
      have h3 : xs.foldlM persistHotspotStep db1 = .ok db' := h2
      obtain ⟨i1, i2, i3⟩ := ih db1 h3
      have hstep2 : (insertPK HotspotRow.file_path db0.hotspots (hotspotToRow x) >>=
          fun hr => (pure { db0 with hotspots := hr } : Except String Sidecar)) =
          .ok db1 := hstep
      cases hins : insertPK HotspotRow.file_path db0.hotspots (hotspotToRow x) with
      | error msg =>
        rw [hins] at hstep2
        exact nomatch hstep2
      | ok hr =>
        rw [hins] at hstep2
        have hdb1 := Except.ok.inj hstep2
        exact ⟨by rw [i1, ← hdb1], by rw [i2, ← hdb1], by rw [i3, ← hdb1]⟩

/-- C5: for every side-index whose persist succeeds, loading the sidecar back
recovers the node, edge and process-step sequences exactly (hence equal sets);
`IndexUsizeWF` records that the `usize` fields are genuine machine values. -/
theorem C5_sidecar_roundtrip (index : CapsuleIndex) (db : Sidecar) (p : String)
    (hwf : IndexUsizeWF index) (hok : persist_to_sidecar index = .ok db) :
    (load_from_sidecar db p).nodes = index.nodes ∧
    (load_from_sidecar db p).edges = index.edges ∧
    (load_from_sidecar db p).process_steps = index.process_steps := by
  obtain ⟨hwfn, hwfe, hwfs⟩ := hwf
  have hok2 : (index.nodes.foldlM persistNodeStep (initSidecar index) >>= fun db1 =>
      (index.edges.foldlM persistEdgeStep
        { db1 with symbols_by_name_normalized :=
            db1.symbols_by_name_normalized ++ index.symbols } >>= fun db2 =>
        (index.hotspots.foldlM persistHotspotStep
          { db2 with
            process_steps_by_process_id := db2.process_steps_by_process_id ++
              index.process_steps.map stepToRow,
            fulltext_lexical_index := db2.fulltext_lexical_index ++ index.fulltext }
          >>= fun db3 =>
          (pure { db3 with community_membership :=
              db3.community_membership ++ index.community_membership } :
            Except String Sidecar)))) = .ok db := hok
  cases hn : index.nodes.foldlM persistNodeStep (initSidecar index) with
  | error e =>
    rw [hn] at hok2
    exact nomatch hok2
  | ok db1 =>
    rw [hn] at hok2
    obtain ⟨n1, n2, n3, n4⟩ := persistNodesFold _ _ _ hn
    have hok3 : (index.edges.foldlM persistEdgeStep
        { db1 with symbols_by_name_normalized :=
            db1.symbols_by_name_normalized ++ index.symbols } >>= fun db2 =>
        (index.hotspots.foldlM persistHotspotStep
          { db2 with
            process_steps_by_process_id := db2.process_steps_by_process_id ++
              index.process_steps.map stepToRow,
            fulltext_lexical_index := db2.fulltext_lexical_index ++ index.fulltext }
          >>= fun db3 =>
          (pure { db3 with community_membership :=
              db3.community_membership ++ index.community_membership } :
            Except String Sidecar))) = .ok db := hok2
    cases he : index.edges.foldlM persistEdgeStep
        { db1 with symbols_by_name_normalized :=
            db1.symbols_by_name_normalized ++ index.symbols } with
    | error e =>
      rw [he] at hok3
      exact nomatch hok3
    | ok db2 =>
      rw [he] at hok3
      obtain ⟨e1, e2, e3, e4⟩ := persistEdgesFold _ _ _ he
      have hok4 : (index.hotspots.foldlM persistHotspotStep
          { db2 with
            process_steps_by_process_id := db2.process_steps_by_process_id ++
              index.process_steps.map stepToRow,
            fulltext_lexical_index := db2.fulltext_lexical_index ++ index.fulltext }
          >>= fun db3 =>
          (pure { db3 with community_membership :=
              db3.community_membership ++ index.community_membership } :
            Except String Sidecar)) = .ok db := hok3
      cases hh : index.hotspots.foldlM persistHotspotStep
          { db2 with
            process_steps_by_process_id := db2.process_steps_by_process_id ++
              index.process_steps.map stepToRow,
            fulltext_lexical_index := db2.fulltext_lexical_index ++ index.fulltext } with
      | error e =>
        rw [hh] at hok4
        exact nomatch hok4
      | ok db3 =>
        rw [hh] at hok4
        obtain ⟨g1, g2, g3⟩ := persistHotspotsFold _ _ _ hh
        have hdb : ({ db3 with community_membership :=
            db3.community_membership ++ index.community_membership } : Sidecar) = db :=
          Except.ok.inj hok4
        have hnodes : db.nodes_by_id = index.nodes.map nodeToRow := by
          rw [← hdb]
          show db3.nodes_by_id = index.nodes.map nodeToRow
          rw [g1]
          show db2.nodes_by_id = index.nodes.map nodeToRow
          rw [e2]
          show db1.nodes_by_id = index.nodes.map nodeToRow
          rw [n1]
          simp [initSidecar]
        have hedges : db.edges = index.edges.map edgeToRow := by
          rw [← hdb]
          show db3.edges = index.edges.map edgeToRow
          rw [g2]
          show db2.edges = index.edges.map edgeToRow
          rw [e1]
          show db1.edges ++ index.edges.map edgeToRow = index.edges.map edgeToRow
          rw [n2]
          simp [initSidecar]
        have hsteps : db.process_steps_by_process_id = index.process_steps.map stepToRow := by
          rw [← hdb]
          show db3.process_steps_by_process_id = index.process_steps.map stepToRow
          rw [g3]
          show db2.process_steps_by_process_id ++ index.process_steps.map stepToRow =
            index.process_steps.map stepToRow
          rw [e3]
          show db1.process_steps_by_process_id ++ index.process_steps.map stepToRow =
            index.process_steps.map stepToRow
          rw [n3]
          simp [initSidecar]
        refine ⟨?_, ?_, ?_⟩
        · show db.nodes_by_id.map rowToNode = index.nodes
          rw [hnodes, List.map_map]
          conv_rhs => rw [← List.map_id index.nodes]
          exact List.map_congr_left (fun n hn =>
            rowToNode_nodeToRow n (hwfn n hn).1 (hwfn n hn).2)
        · show db.edges.map rowToEdge = index.edges
          rw [hedges, List.map_map]
          conv_rhs => rw [← List.map_id index.edges]
          exact List.map_congr_left (fun e he2 => rowToEdge_edgeToRow e (hwfe e he2))
        · show db.process_steps_by_process_id.map rowToStep = index.process_steps
          rw [hsteps, List.map_map]
          conv_rhs => rw [← List.map_id index.process_steps]
          exact List.map_congr_left (fun st hst => rowToStep_stepToRow st (hwfs st hst))

theorem C5_sidecar_roundtrip_witness :
    IndexUsizeWF c5Index ∧
    (load_from_sidecar c5Db "demo.mv2").nodes = c5Index.nodes ∧
    (load_from_sidecar c5Db "demo.mv2").edges = c5Index.edges ∧
    (load_from_sidecar c5Db "demo.mv2").process_steps = c5Index.process_steps := by
  have hwf : IndexUsizeWF c5Index := by
    refine ⟨?_, ?_, ?_⟩ <;> decide
  have hok : persist_to_sidecar c5Index = .ok c5Db := by rfl
  exact ⟨hwf, C5_sidecar_roundtrip c5Index c5Db "demo.mv2" hwf hok⟩

/-- `rankedLe` is transitive. -/
theorem rankedLe_trans (a b c : RankedItem) (hab : rankedLe a b) (hbc : rankedLe b c) :
    rankedLe a c := by
  rw [rankedLe] at hab hbc ⊢
  simp only [Bool.or_eq_true, Bool.and_eq_true, decide_eq_true_eq] at hab hbc ⊢
  rcases hab with h1 | ⟨h1, h2⟩ <;> rcases hbc with h3 | ⟨h3, h4⟩
  · exact Or.inl (lt_trans h3 h1)
  · exact Or.inl (lt_of_eq_of_lt h3.symm h1)
  · exact Or.inl (lt_of_lt_of_eq h3 h1.symm)
  · exact Or.inr ⟨h1.trans h3, le_trans h2 h4⟩

/-- `rankedLe` is total. -/
theorem rankedLe_total (a b : RankedItem) : rankedLe a b || rankedLe b a := by
  rw [Bool.or_eq_true, rankedLe, rankedLe]
  simp only [Bool.or_eq_true, Bool.and_eq_true, decide_eq_true_eq]
  rcases lt_trichotomy a.score b.score with h | h | h
  · exact Or.inr (Or.inl h)
  · rcases le_total a.key b.key with f | f
    · exact Or.inl (Or.inr ⟨h, f⟩)
    · exact Or.inr (Or.inr ⟨h.symm, f⟩)
  · exact Or.inl (Or.inl h)

/-- With no cursor and a limit at least the number of rows, pagination returns
every payload in sorted order. -/
theorem paginate_ranked_all (rows : List RankedItem) (limit : Nat)
    (h : rows.length ≤ limit) :
    (paginate_ranked rows limit none).items
      = (rows.mergeSort rankedLe).map RankedItem.payload := by
  have hlen : (rows.mergeSort rankedLe).length = rows.length :=
    (List.mergeSort_perm rows rankedLe).length_eq
  show (((rows.mergeSort rankedLe).drop 0).take
      (min (0 + limit) (rows.mergeSort rankedLe).length - 0)).map RankedItem.payload
    = (rows.mergeSort rankedLe).map RankedItem.payload
  rw [List.drop_zero, Nat.zero_add, Nat.sub_zero, hlen, Nat.min_eq_right h,
    List.take_of_length_le (le_of_eq hlen)]

/-- The payload built by the lookup loop agrees with the spec-side item. -/
theorem symbolRow_payload (index : CapsuleIndex) (norm : String) (s : SymbolRecord) :
    (symbolRow index norm s).payload = specSymbolItem index norm s := rfl

/-- C6: for a query whose normalization is non-empty, with no cursor and with
fewer matches than the page limit, symbol lookup returns exactly the payloads
of the symbol records whose normalized name contains the normalized query,
scored per the spec (1.0 equality / 0.92 prefix / 0.78 substring), ordered by
score descending then `symbolNorm::nodeId` key ascending. -/
theorem C6_symbol_lookup (index : CapsuleIndex) (args : ToolArgs) (query : String)
    (hq : args.query = some query)
    (hqt : (rustTrim query).isEmpty = false)
    (hnorm : (normalize_text query).isEmpty = false)
    (hcur : args.cursor = none)
    (hlim : (index.symbols.filter
        (fun s => strContainsSub s.symbol_norm (normalize_text query))).length
      ≤ parse_limit args 20 100) :
    ∃ pag conf, tool_symbol_lookup index args = .ok (pag, conf) ∧
      pag.items.Perm ((index.symbols.filter
        (fun s => strContainsSub s.symbol_norm (normalize_text query))).map
        (specSymbolItem index (normalize_text query))) ∧
      pag.items.Pairwise specItemLe := by
  have hreq : require_str args.query = .ok query := by
    rw [hq]
    simp [require_str, hqt]
  have hlim2 : ((index.symbols.filter
      (fun s => strContainsSub s.symbol_norm (normalize_text query))).map
      (symbolRow index (normalize_text query))).length ≤ parse_limit args 20 100 := by
    rwa [List.length_map]
  have htool : tool_symbol_lookup index args =
      .ok (paginate_ranked ((index.symbols.filter
          (fun s => strContainsSub s.symbol_norm (normalize_text query))).map
          (symbolRow index (normalize_text query))) (parse_limit args 20 100) none,
        if (paginate_ranked ((index.symbols.filter
            (fun s => strContainsSub s.symbol_norm (normalize_text query))).map
            (symbolRow index (normalize_text query))) (parse_limit args 20 100)
            none).items.isEmpty then 1 / 5 else 23 / 25) := by
    unfold tool_symbol_lookup
    rw [hreq]
    simp only []
    rw [if_neg (by rw [hnorm]; exact Bool.false_ne_true)]
    rw [show parse_cursor args = none from hcur]
  refine ⟨_, _, htool, ?_, ?_⟩
  · rw [paginate_ranked_all _ _ hlim2]
    have hperm := (List.mergeSort_perm ((index.symbols.filter
        (fun s => strContainsSub s.symbol_norm (normalize_text query))).map
        (symbolRow index (normalize_text query))) rankedLe).map RankedItem.payload
    rw [List.map_map] at hperm
    have hmapeq : (index.symbols.filter
        (fun s => strContainsSub s.symbol_norm (normalize_text query))).map
        (RankedItem.payload ∘ symbolRow index (normalize_text query))
      = (index.symbols.filter
        (fun s => strContainsSub s.symbol_norm (normalize_text query))).map
        (specSymbolItem index (normalize_text query)) :=
      List.map_congr_left (fun s _ => symbolRow_payload index (normalize_text query) s)
    rwa [hmapeq] at hperm
  · rw [paginate_ranked_all _ _ hlim2]
    have hsorted := @List.sorted_mergeSort RankedItem rankedLe rankedLe_trans
      rankedLe_total ((index.symbols.filter
        (fun s => strContainsSub s.symbol_norm (normalize_text query))).map
        (symbolRow index (normalize_text query)))
    have hmem : ∀ x ∈ ((index.symbols.filter
        (fun s => strContainsSub s.symbol_norm (normalize_text query))).map
        (symbolRow index (normalize_text query))).mergeSort rankedLe,
        x.score = x.payload.score ∧
          x.key = x.payload.symbolNorm ++ "::" ++ x.payload.nodeId := by
      intro x hx
      have hx2 := (List.mergeSort_perm ((index.symbols.filter
          (fun s => strContainsSub s.symbol_norm (normalize_text query))).map
          (symbolRow index (normalize_text query))) rankedLe).mem_iff.mp hx
      obtain ⟨s, _, rfl⟩ := List.mem_map.mp hx2
      exact ⟨rfl, rfl⟩
    rw [List.pairwise_map]
    refine hsorted.imp_of_mem ?_
    intro a b ha hb hr
    obtain ⟨ha1, ha2⟩ := hmem a ha
    obtain ⟨hb1, hb2⟩ := hmem b hb
    rw [rankedLe] at hr
    simp only [Bool.or_eq_true, Bool.and_eq_true, decide_eq_true_eq] at hr
    unfold specItemLe
    rcases hr with h | ⟨h1, h2⟩
    · exact Or.inl (by rw [← ha1, ← hb1]; exact h)
    · exact Or.inr ⟨by rw [← ha1, ← hb1]; exact h1, by rw [← ha2, ← hb2]; exact h2⟩

theorem C6_symbol_lookup_witness :
    c6Args.query = some "Foo" ∧ (rustTrim "Foo").isEmpty = false ∧
    (normalize_text "Foo").isEmpty = false ∧ c6Args.cursor = none ∧
    (c6Index.symbols.filter
        (fun s => strContainsSub s.symbol_norm (normalize_text "Foo"))).length
      ≤ parse_limit c6Args 20 100 ∧
    (∃ pag conf, tool_symbol_lookup c6Index c6Args = .ok (pag, conf) ∧
      pag.items.Perm ((c6Index.symbols.filter
        (fun s => strContainsSub s.symbol_norm (normalize_text "Foo"))).map
        (specSymbolItem c6Index (normalize_text "Foo"))) ∧
      pag.items.Pairwise specItemLe) :=
  ⟨rfl, by decide, by decide, rfl, by decide,
    C6_symbol_lookup c6Index c6Args "Foo" rfl (by decide) (by decide) rfl (by decide)⟩

/-- Splitting at the first `"::"` after a colon-free prefix recovers the
prefix and the remainder (even when the remainder contains further colons). -/
theorem splitOnceCC_append (a b : List Char) (ha : ':' ∉ a) :
    splitOnceCC (a ++ ':' :: ':' :: b) = some (a, b) := by
  induction a with
  | nil => simp [splitOnceCC]
  | cons c cs ih =>
    have hc : ¬ c = ':' := fun h => ha (h ▸ List.mem_cons_self c cs)
    have ha2 : ':' ∉ cs := fun h => ha (List.mem_cons_of_mem c h)
    rw [List.cons_append, splitOnceCC, if_neg (fun h => hc h.1), ih ha2]

/-- Splitting at the first `'.'` after a dot-free prefix recovers the parts. -/
theorem splitOnceDot_append (a b : List Char) (ha : '.' ∉ a) :
    splitOnceDot (a ++ '.' :: b) = some (a, b) := by
  induction a with
  | nil => simp [splitOnceDot]
  | cons c cs ih =>
    have hc : ¬ c = '.' := fun h => ha (h ▸ List.mem_cons_self c cs)
    have ha2 : '.' ∉ cs := fun h => ha (List.mem_cons_of_mem c h)
    rw [List.cons_append, splitOnceDot, if_neg hc, ih ha2]

theorem digitChar_toNat (d : Nat) (h : d < 10) : (digitChar d).toNat = 48 + d := by
  interval_cases d <;> decide

theorem isDigitChar_digitChar (d : Nat) (h : d < 10) : isDigitChar (digitChar d) = true := by
  interval_cases d <;> decide

/-- Every character printed by the decimal printer is a digit. -/
theorem natToDecChars_digits (n : Nat) :
    ∀ c ∈ natToDecChars n, isDigitChar c = true := by
  intro c hc
  unfold natToDecChars at hc
  split at hc
  · simp only [List.mem_singleton] at hc
    subst hc
    decide
  · rw [List.mem_reverse, List.mem_map] at hc
    obtain ⟨d, hd, rfl⟩ := hc
    exact isDigitChar_digitChar d (Nat.digits_lt_base (by norm_num) hd)

theorem digit_ne_colon {c : Char} (h : isDigitChar c = true) : ¬ c = ':' := by
  intro heq
  subst heq
  exact absurd h (by decide)

theorem digit_ne_dot {c : Char} (h : isDigitChar c = true) : ¬ c = '.' := by
  intro heq
  subst heq
  exact absurd h (by decide)

theorem digit_ne_minus {c : Char} (h : isDigitChar c = true) : ¬ c = '-' := by
  intro heq
  subst heq
  exact absurd h (by decide)

theorem natToDecChars_ne_nil (n : Nat) : natToDecChars n ≠ [] := by
  unfold natToDecChars
  split
  · simp
  · simp [Nat.digits_ne_nil_iff_ne_zero.mpr (by assumption)]

/-- Folding the printed digits of a little-endian digit list. -/
theorem foldl_digitChars (ds : List Nat) (h : ∀ d ∈ ds, d < 10) (a : Nat) :
    ((ds.map digitChar).reverse).foldl (fun x c => x * 10 + (c.toNat - 48)) a
      = a * 10 ^ ds.length + Nat.ofDigits 10 ds := by
  induction ds generalizing a with
  | nil => simp
  | cons d ds ih =>
    have hd : d < 10 := h d (List.mem_cons_self d ds)
    have h2 : ∀ x ∈ ds, x < 10 := fun x hx => h x (List.mem_cons_of_mem d hx)
    rw [List.map_cons, List.reverse_cons, List.foldl_append, ih h2 a]
    simp only [List.foldl_cons, List.foldl_nil, digitChar_toNat d hd,
      Nat.ofDigits_cons, List.length_cons]
    have h48 : 48 + d - 48 = d := by omega
    rw [h48]
    ring

/-- The printed decimal string evaluates back to the printed number. -/
theorem foldlDec (n : Nat) :
    (natToDecChars n).foldl (fun x c => x * 10 + (c.toNat - 48)) 0 = n := by
  unfold natToDecChars
  split
  · rename_i h
    subst h
    decide
  · rw [foldl_digitChars (Nat.digits 10 n)
      (fun d hd => Nat.digits_lt_base (by norm_num) hd) 0]
    simp [Nat.ofDigits_digits]

theorem natToDecChars_isEmpty (n : Nat) : (natToDecChars n).isEmpty = false := by
  cases hd : natToDecChars n with
  | nil => exact absurd hd (natToDecChars_ne_nil n)
  | cons c cs => rfl

theorem parseNat_natToDecChars (n : Nat) :
    parseNatDigits (natToDecChars n) = some n := by
  have hall : (natToDecChars n).all isDigitChar = true :=
    List.all_eq_true.mpr (natToDecChars_digits n)
  unfold parseNatDigits
  rw [if_neg (by rw [natToDecChars_isEmpty, hall]; exact Bool.false_ne_true),
    foldlDec]

theorem foldl_zeroPad (k : Nat) (a : Nat) :
    (List.replicate k '0').foldl (fun x c => x * 10 + (c.toNat - 48)) a
      = a * 10 ^ k := by
  induction k generalizing a with
  | zero => simp
  | succ k ih =>
    rw [List.replicate_succ, List.foldl_cons, ih]
    have h0 : '0'.toNat - 48 = 0 := by decide
    rw [h0]
    ring

theorem pad6_isEmpty (n : Nat) : (pad6 n).isEmpty = false := by
  unfold pad6
  cases hrep : List.replicate (6 - (natToDecChars n).length) '0' with
  | nil =>
    rw [List.nil_append]
    exact natToDecChars_isEmpty n
  | cons c cs => rfl

theorem pad6_digits (n : Nat) : ∀ c ∈ pad6 n, isDigitChar c = true := by
  intro c hc
  unfold pad6 at hc
  rcases List.mem_append.mp hc with h | h
  · rw [List.eq_of_mem_replicate h]
    decide
  · exact natToDecChars_digits n c h

theorem parseNat_pad6 (n : Nat) : parseNatDigits (pad6 n) = some n := by
  have hall : (pad6 n).all isDigitChar = true := List.all_eq_true.mpr (pad6_digits n)
  unfold parseNatDigits
  rw [if_neg (by rw [pad6_isEmpty, hall]; exact Bool.false_ne_true)]
  show some ((List.replicate (6 - (natToDecChars n).length) '0' ++
    natToDecChars n).foldl (fun a c => a * 10 + (c.toNat - 48)) 0) = some n
  rw [List.foldl_append, foldl_zeroPad, Nat.zero_mul, foldlDec]

theorem pad6_length (n : Nat) (h : n < 10 ^ 6) : (pad6 n).length = 6 := by
  have hlen : (natToDecChars n).length ≤ 6 := by
    unfold natToDecChars
    split
    · simp
    · rw [List.length_reverse, List.length_map,
        Nat.digits_len 10 n (by norm_num) (by assumption)]
      have hlog := (Nat.lt_pow_iff_log_lt (by norm_num) (by assumption)).mp h
      omega
  unfold pad6
  rw [List.length_append, List.length_replicate]
  omega

/-- Parsing the printed `intpart.fracpart` body yields the exact rational. -/
theorem parsePos_body (ip fp : Nat) (hfp : fp < 10 ^ 6) :
    parsePosF64 (natToDecChars ip ++ '.' :: pad6 fp)
      = some ((ip : ℚ) + (fp : ℚ) / 10 ^ 6) := by
  unfold parsePosF64
  rw [splitOnceDot_append _ _
    (fun h => digit_ne_dot (natToDecChars_digits ip '.' h) rfl)]
  simp only []
  rw [parseNat_natToDecChars, parseNat_pad6]
  simp only []
  rw [pad6_length fp hfp]

/-- No colon occurs in a 6-decimal formatted score. -/
theorem colon_not_mem_fmt6 (q : ℚ) : ':' ∉ (fmt6 q).data := by
  intro hmem
  have hbody : ∀ c ∈ natToDecChars ((round (|q| * 10 ^ 6)).toNat / 10 ^ 6) ++
      '.' :: pad6 ((round (|q| * 10 ^ 6)).toNat % 10 ^ 6), ¬ c = ':' := by
    intro c hc
    rcases List.mem_append.mp hc with h | h
    · exact digit_ne_colon (natToDecChars_digits _ c h)
    · rcases List.mem_cons.mp h with h2 | h2
      · subst h2
        decide
      · exact digit_ne_colon (pad6_digits _ c h2)
  have hdata : (fmt6 q).data = if q < 0 then
      '-' :: (natToDecChars ((round (|q| * 10 ^ 6)).toNat / 10 ^ 6) ++
        '.' :: pad6 ((round (|q| * 10 ^ 6)).toNat % 10 ^ 6))
    else natToDecChars ((round (|q| * 10 ^ 6)).toNat / 10 ^ 6) ++
        '.' :: pad6 ((round (|q| * 10 ^ 6)).toNat % 10 ^ 6) := rfl
  rw [hdata] at hmem
  split at hmem
  · rcases List.mem_cons.mp hmem with h | h
    · exact absurd h (by decide)
    · exact hbody ':' h rfl
  · exact hbody ':' hmem rfl

/-- Parsing back a formatted score yields the score rounded to six decimals. -/
theorem parseF64_fmt6 (q : ℚ) : parseF64 (fmt6 q) = some (roundTo6 q) := by
  have hround : (0 : ℤ) ≤ round (|q| * 10 ^ 6) := by
    rw [round_eq]
    exact Int.floor_nonneg.mpr (by positivity)
  have hmod : (round (|q| * 10 ^ 6)).toNat % 10 ^ 6 < 10 ^ 6 :=
    Nat.mod_lt _ (by norm_num)
  have htq : (((round (|q| * 10 ^ 6)).toNat : ℚ)) = ((round (|q| * 10 ^ 6) : ℤ) : ℚ) := by
    exact_mod_cast Int.toNat_of_nonneg hround
  have hdmq : (10 : ℚ) ^ 6 * (((round (|q| * 10 ^ 6)).toNat / 10 ^ 6 : Nat) : ℚ)
      + (((round (|q| * 10 ^ 6)).toNat % 10 ^ 6 : Nat) : ℚ)
      = (((round (|q| * 10 ^ 6)).toNat : ℚ)) := by
    have h := congrArg (fun n : Nat => (n : ℚ))
      (Nat.div_add_mod ((round (|q| * 10 ^ 6)).toNat) (10 ^ 6))
    push_cast at h
    linarith [h]
  have hval : ((((round (|q| * 10 ^ 6)).toNat / 10 ^ 6 : Nat) : ℚ)
      + (((round (|q| * 10 ^ 6)).toNat % 10 ^ 6 : Nat) : ℚ) / 10 ^ 6)
      = (((round (|q| * 10 ^ 6) : ℤ) : ℚ) / 10 ^ 6) := by
    rw [← htq]
    field_simp
    linarith [hdmq]
  have hbody : parsePosF64 (natToDecChars ((round (|q| * 10 ^ 6)).toNat / 10 ^ 6) ++
      '.' :: pad6 ((round (|q| * 10 ^ 6)).toNat % 10 ^ 6))
      = some (((round (|q| * 10 ^ 6) : ℤ) : ℚ) / 10 ^ 6) := by
    rw [parsePos_body _ _ hmod, hval]
  by_cases hneg : q < 0
  · have hdata : (fmt6 q).data =
        '-' :: (natToDecChars ((round (|q| * 10 ^ 6)).toNat / 10 ^ 6) ++
          '.' :: pad6 ((round (|q| * 10 ^ 6)).toNat % 10 ^ 6)) := by
      show (if q < 0 then _ else _) = _
      rw [if_pos hneg]
    unfold parseF64
    rw [hdata]
    simp only []
    rw [if_pos trivial, hbody]
    show some (-(((round (|q| * 10 ^ 6) : ℤ) : ℚ) / 10 ^ 6)) = some (roundTo6 q)
    rw [roundTo6, if_pos hneg]
    congr 1
    ring
  · have hdata : (fmt6 q).data =
        natToDecChars ((round (|q| * 10 ^ 6)).toNat / 10 ^ 6) ++
          '.' :: pad6 ((round (|q| * 10 ^ 6)).toNat % 10 ^ 6) := by
      show (if q < 0 then _ else _) = _
      rw [if_neg hneg]
    unfold parseF64
    rw [hdata]
    cases hnd : natToDecChars ((round (|q| * 10 ^ 6)).toNat / 10 ^ 6) with
    | nil => exact absurd hnd (natToDecChars_ne_nil _)
    | cons c cs =>
      have hdigit : isDigitChar c = true :=
        natToDecChars_digits _ c (by rw [hnd]; exact List.mem_cons_self c cs)
      rw [List.cons_append]
      simp only []
      rw [if_neg (digit_ne_minus hdigit), ← List.cons_append, ← hnd, hbody]
      rw [roundTo6, if_neg hneg]
      congr 1
      ring

/-- C9: decoding an encoded cursor recovers the key exactly (the first `"::"`
always terminates the colon-free formatted score) and the score rounded to six
decimal places. -/
theorem C9_cursor_roundtrip (s : ℚ) (k : String) :
    decode_cursor (encode_cursor s k) = some (roundTo6 s, k) := by
  rw [decode_cursor, encode_cursor]
  show (match splitOnceCC ((fmt6 s).data ++ ':' :: ':' :: k.data) with
    | none => none
    | some (sc, key) =>
      match parseF64 (String.mk sc) with
      | none => none
      | some q => some (q, String.mk key)) = some (roundTo6 s, k)
  rw [splitOnceCC_append _ _ (colon_not_mem_fmt6 s)]
  simp only []
  have hfmt : String.mk (fmt6 s).data = fmt6 s := rfl
  rw [hfmt, parseF64_fmt6]

end GitNexus
